import Mathlib

/-!
Verification of the graframe query-graph builder/compiler and concept matcher
(repository rdf-mcp, files src/graframe/query_graph.py, src/graframe/query.py,
src/graframe/matcher.py).

The Python code is shallowly embedded: frozen dataclasses become structures,
Python `dict`s become insertion-ordered association lists (`Dict` below) whose
update-in-place semantics (`dictSet`) matches Python dict assignment, and code
that can raise becomes `Except PyErr`.  Machine integers are `Int`; Python
floats in the matcher are modelled by `Rat` (all score comparisons in the
source are pure comparisons of the computed values, so the threshold/ordering
facts proved here do not depend on rounding).
-/

/-- Errors raised by the embedded Python code. `valueError` models
`raise ValueError(msg)`; `attributeError` models an `AttributeError` from
accessing a missing attribute; `keyError` models a `KeyError` from a dict
lookup with a missing key. -/
inductive PyErr where
  | valueError (msg : String)
  | attributeError (msg : String)
  | keyError (msg : String)
deriving DecidableEq

/-- Python values that occur in node `constraints` and data-node `filters`
maps (the source stores booleans, strings, numbers or `None` there). -/
inductive PyVal where
  | str (s : String)
  | int (n : Int)
  | bool (b : Bool)
  | none
deriving DecidableEq

/-- An insertion-ordered association list modelling a Python `dict`:
iteration order is list order, updates keep the original position. -/
abbrev Dict (K V : Type) := List (K × V)

/-- `d[k]` / `d.get(k)`: first binding of `k` (unique when built by
`dictSet`). -/
def dictGet {K V : Type} [DecidableEq K] (d : Dict K V) (k : K) : Option V :=
  match d with
  | [] => Option.none
  | (k', v) :: rest => if k = k' then some v else dictGet rest k

/-- `d[k] = v`: replace the binding in place if the key is present (Python
dicts keep the key's original iteration position on update), else append. -/
def dictSet {K V : Type} [DecidableEq K] (d : Dict K V) (k : K) (v : V) : Dict K V :=
  match d with
  | [] => [(k, v)]
  | (k', v') :: rest => if k = k' then (k, v) :: rest else (k', v') :: dictSet rest k v

/-- `list(d.keys())`. -/
def dictKeys {K V : Type} (d : Dict K V) : List K := d.map Prod.fst

/-- `list(d.values())`. -/
def dictValues {K V : Type} (d : Dict K V) : List V := d.map Prod.snd

/-- `{v: k for k, v in d.items()}` — invert a dict; on duplicate values the
later key wins, as in a Python dict comprehension. -/
def invertDict {K V : Type} [DecidableEq V] (d : Dict K V) : Dict V K :=
  d.foldl (fun acc kv => dictSet acc kv.2 kv.1) []

/-- `max(xs, default=d)` for integers. -/
def listMaxD (xs : List Int) (d : Int) : Int :=
  xs.foldl max d

/-- Insert into a ≤-sorted list of integers (ascending). -/
def insSorted (x : Int) : List Int → List Int
  | [] => [x]
  | y :: ys => if x ≤ y then x :: y :: ys else y :: insSorted x ys

/-- `sorted(xs)` for integers (ascending insertion sort). -/
def sortInts : List Int → List Int
  | [] => []
  | x :: xs => insSorted x (sortInts xs)

/-- Deduplicate keeping the first occurrence (the order `dict.fromkeys` and
`set` iteration produce in the source idioms modelled here). -/
def dedupFirstAux {α : Type} [DecidableEq α] : List α → List α → List α
  | [], _ => []
  | x :: xs, seen => if x ∈ seen then dedupFirstAux xs seen else x :: dedupFirstAux xs (x :: seen)

/-- Deduplicate keeping first occurrences. -/
def dedupFirst {α : Type} [DecidableEq α] (l : List α) : List α := dedupFirstAux l []

/-- Python truthiness of an optional list (`None` and `[]` are falsy). -/
def optListTruthy {α : Type} : Option (List α) → Bool
  | Option.none => false
  | some l => !l.isEmpty

/-- Python truthiness of an optional string (`None` and `""` are falsy). -/
def optStrTruthy : Option String → Bool
  | Option.none => false
  | some s => s ≠ ""

/-! ### Characters and Python string primitives (matcher.py)

The matcher's normalization pipeline uses `str.strip`, `str.lower`,
`unicodedata.normalize` ("NFKC"/"NFKD"), `unicodedata.combining` and the ASCII
regex classes `[A-Za-z0-9]`, `[a-z0-9]`, `[A-Z]`.  Strings are `List Char`
internally.  The Unicode library functions are modelled on a representative
fragment: exactly on the full ASCII range (which is all that survives the
`[A-Za-z0-9]+` token filter) plus a small table of common compatibility
characters; this suffices for every theorem below, whose interesting inputs
are ASCII. -/

/-- Code point of a character as a natural number. -/
def cp (c : Char) : Nat := c.toNat

/-- ASCII `[0-9]`. -/
def isDigitC (c : Char) : Bool := 48 ≤ cp c && cp c ≤ 57

/-- ASCII `[a-z]`. -/
def isLowerC (c : Char) : Bool := 97 ≤ cp c && cp c ≤ 122

/-- ASCII `[A-Z]`. -/
def isUpperC (c : Char) : Bool := 65 ≤ cp c && cp c ≤ 90

/-- The regex class `[A-Za-z0-9]` of `_WORD_RE`. -/
def isWordC (c : Char) : Bool := isDigitC c || isLowerC c || isUpperC c

/-- The regex class `[a-z0-9]` (left side of the camel-case split). -/
def isLowerDigitC (c : Char) : Bool := isLowerC c || isDigitC c

/-- Python `str.isspace` characters (the set `str.strip()` strips):
tab..CR, FS..US, space, NEL, NBSP and the Unicode space separators. -/
def isPySpace (c : Char) : Bool :=
  (9 ≤ cp c && cp c ≤ 13) || (28 ≤ cp c && cp c ≤ 32) ||
  cp c = 133 || cp c = 160 || cp c = 5760 ||
  (8192 ≤ cp c && cp c ≤ 8202) || cp c = 8232 || cp c = 8233 ||
  cp c = 8239 || cp c = 8287 || cp c = 12288

/-- `s.strip()`: drop leading and trailing whitespace. -/
def pyStrip (l : List Char) : List Char :=
  ((l.dropWhile isPySpace).reverse.dropWhile isPySpace).reverse

/-- Model of `unicodedata.normalize("NFKC", ·)` applied characterwise:
identity on ASCII (faithful — ASCII is NFKC-invariant), with a representative
table of compatibility characters; further non-ASCII behaviour is outside the
modelled fragment. -/
def nfkcChar (c : Char) : List Char :=
  if cp c = 0xFB01 then ['f', 'i']
  else if cp c = 0xB2 then ['2']
  else if cp c = 0x2460 then ['1']
  else if cp c = 0xA0 then [' ']
  else [c]

/-- `unicodedata.normalize("NFKC", s)` on the modelled fragment. -/
def nfkc (l : List Char) : List Char := l.flatMap nfkcChar

/-- Model of `unicodedata.normalize("NFKD", ·)` applied characterwise:
identity on ASCII (faithful), with a representative decomposition table. -/
def nfkdChar (c : Char) : List Char :=
  if cp c = 0xE9 then ['e', Char.ofNat 0x301]
  else if cp c = 0xE8 then ['e', Char.ofNat 0x300]
  else if cp c = 0xFB01 then ['f', 'i']
  else if cp c = 0xA0 then [' ']
  else [c]

/-- `unicodedata.combining(c) != 0` on the modelled fragment (the combining
diacritical marks block U+0300–U+036F; faithful on ASCII, where it is false). -/
def isCombining (c : Char) : Bool := 0x300 ≤ cp c && cp c ≤ 0x36F

/-- `_strip_diacritics`: NFKD-normalize and drop combining characters. -/
def stripDiacritics (l : List Char) : List Char :=
  (l.flatMap nfkdChar).filter (fun c => !isCombining c)

/-- The camel-case split `_CAMEL_SPLIT_RE.sub(" ", s)` with pattern
`(?<=[a-z0-9])(?=[A-Z])`: insert a space between a lowercase/digit character
and a following uppercase character. -/
def camelSplit : List Char → List Char
  | [] => []
  | c :: rest =>
    match rest with
    | [] => [c]
    | c2 :: _ =>
      if isLowerDigitC c && isUpperC c2 then c :: ' ' :: camelSplit rest
      else c :: camelSplit rest

/-- `s.replace("_", " ").replace("-", " ")`. -/
def underscoreDashToSpace (l : List Char) : List Char :=
  l.map (fun c => if c = '_' || c = '-' then ' ' else c)

/-- `_split_identifier`: camel-case split, then `_`/`-` to spaces. -/
def splitIdentifier (l : List Char) : List Char :=
  underscoreDashToSpace (camelSplit l)

/-- Python `str.lower` on the modelled fragment (identity outside ASCII;
faithful on ASCII). -/
def asciiLowerChar (c : Char) : Char :=
  if isUpperC c then Char.ofNat (cp c + 32) else c

/-- `s.lower()` on the modelled fragment. -/
def asciiLower (l : List Char) : List Char := l.map asciiLowerChar

/-- `_WORD_RE.findall(s)`: the maximal nonempty runs of `[A-Za-z0-9]`
characters, in order.  `acc` holds the (reversed) run being scanned. -/
def wordRunsAux : List Char → List Char → List (List Char)
  | [], acc => if acc = [] then [] else [acc.reverse]
  | c :: rest, acc =>
    if isWordC c then wordRunsAux rest (c :: acc)
    else if acc = [] then wordRunsAux rest []
    else acc.reverse :: wordRunsAux rest []

/-- `_WORD_RE.findall(s)`. -/
def wordRuns (l : List Char) : List (List Char) := wordRunsAux l []

/-- `" ".join(tokens)`. -/
def joinSp : List (List Char) → List Char
  | [] => []
  | [t] => t
  | t :: ts => t ++ ' ' :: joinSp ts

/-- `normalize_text` (matcher.py lines 21–29) on character lists:
strip, NFKC, strip diacritics, split identifiers, lowercase, keep
`[A-Za-z0-9]+` tokens joined by single spaces. -/
def normChars (l : List Char) : List Char :=
  joinSp (wordRuns (asciiLower (splitIdentifier (stripDiacritics (nfkc (pyStrip l))))))

/-- `normalize_text` on `String`. -/
def normalize_text (s : String) : String := String.mk (normChars s.data)

/-- `s.split()`: maximal nonempty runs of non-whitespace characters. -/
def pySplitAux : List Char → List Char → List (List Char)
  | [], acc => if acc = [] then [] else [acc.reverse]
  | c :: rest, acc =>
    if isPySpace c then
      if acc = [] then pySplitAux rest [] else acc.reverse :: pySplitAux rest []
    else pySplitAux rest (c :: acc)

/-- `s.split()`. -/
def pySplit (l : List Char) : List (List Char) := pySplitAux l []

/-- The cheap singularization in `tokenize`: a token longer than 3 characters
ending in `s` loses the trailing `s`. -/
def singularize (t : List Char) : List Char :=
  if 3 < t.length && t.getLast? = some 's' then t.dropLast else t

/-- `tokenize` (matcher.py lines 31–43): normalize, split on whitespace,
singularize each token. -/
def tokenize (s : String) : List String :=
  let s2 := normChars s.data
  if s2 = [] then []
  else (pySplit s2).map (fun t => String.mk (singularize t))

/-- Exact fractions for the matcher's float scores.  Kept *unnormalized* so
every arithmetic operation is a plain integer computation the kernel can
evaluate; comparisons cross-multiply.  Every denominator arising in the
matcher is positive, so the comparisons agree with the rational order, and
the score arithmetic computes exactly the real-number values of the source's
formulas (float rounding aside, as with any exact-arithmetic model). -/
structure SRat where
  num : Int
  den : Int
deriving DecidableEq

/-- The integer `n` as a fraction. -/
def SRat.ofInt (n : Int) : SRat := ⟨n, 1⟩

/-- Fraction addition (no normalization). -/
def SRat.add (a b : SRat) : SRat := ⟨a.num * b.den + b.num * a.den, a.den * b.den⟩

/-- Fraction subtraction (no normalization). -/
def SRat.sub (a b : SRat) : SRat := ⟨a.num * b.den - b.num * a.den, a.den * b.den⟩

/-- Fraction multiplication (no normalization). -/
def SRat.mul (a b : SRat) : SRat := ⟨a.num * b.num, a.den * b.den⟩

/-- `a < b` by cross-multiplication (faithful for positive denominators). -/
def SRat.lt (a b : SRat) : Bool := a.num * b.den < b.num * a.den

/-- `a ≤ b` by cross-multiplication (faithful for positive denominators). -/
def SRat.le (a b : SRat) : Bool := a.num * b.den ≤ b.num * a.den

/-- Numeric equality `a = b` by cross-multiplication. -/
def SRat.eqv (a b : SRat) : Bool := a.num * b.den = b.num * a.den

/-- `jaccard` (matcher.py lines 45–51): Jaccard similarity of the token sets. -/
def jaccard (a b : List String) : SRat :=
  let sa := dedupFirst a
  let sb := dedupFirst b
  if sa = [] && sb = [] then ⟨1, 1⟩
  else if sa = [] || sb = [] then ⟨0, 1⟩
  else ⟨((sa.filter (fun x => x ∈ sb)).length : Int), ((dedupFirst (sa ++ sb)).length : Int)⟩

/-- `initialism` (matcher.py lines 101–104): first letters of the nonempty
tokens. -/
def initialism (tokens : List String) : String :=
  String.mk (tokens.flatMap (fun t => match t.data with | [] => [] | c :: _ => [c]))

/-! ### `seq_ratio`: difflib.SequenceMatcher ratio (matcher.py lines 53–58)

`SequenceMatcher.ratio()` is `2*M/(len(a)+len(b))` where `M` is the total size
of the matching blocks found by the Ratcliff–Obershelp recursion: find the
longest matching block (earliest in `a`, then in `b`, among the maximal ones),
recurse on the pieces to its left and to its right.  Modelled without difflib's
autojunk heuristic, which only activates for strings of length ≥ 200 (outside
every input considered here). -/

/-- Length of the longest common prefix. -/
def commonPrefixLen : List Char → List Char → Nat
  | a :: as', b :: bs => if a = b then commonPrefixLen as' bs + 1 else 0
  | _, _ => 0

/-- `find_longest_match` over the whole strings: the `(i, j, size)` with
maximal `size`; ties resolved to the smallest `i`, then the smallest `j`. -/
def flmBest (a b : List Char) : Nat × Nat × Nat :=
  (List.range a.length).foldl (fun best i =>
    (List.range b.length).foldl (fun best' j =>
      let k := commonPrefixLen (a.drop i) (b.drop j)
      if best'.2.2 < k then (i, j, k) else best') best) (0, 0, 0)

/-- Total matched size of the Ratcliff–Obershelp recursion.  The fuel only
serves termination; `a.length + b.length + 1` always suffices because each
recursive call strictly shrinks `a` (resp. `b`). -/
def rMatchFuel : Nat → List Char → List Char → Nat
  | 0, _, _ => 0
  | fuel + 1, a, b =>
    let ijk := flmBest a b
    if ijk.2.2 = 0 then 0
    else
      rMatchFuel fuel (a.take ijk.1) (b.take ijk.2.1) + ijk.2.2 +
        rMatchFuel fuel (a.drop (ijk.1 + ijk.2.2)) (b.drop (ijk.2.1 + ijk.2.2))

/-- Total size of all matching blocks. -/
def ratcliffMatches (a b : List Char) : Nat :=
  rMatchFuel (a.length + b.length + 1) a b

/-- `seq_ratio` (matcher.py lines 53–58): `2*M/(len(a)+len(b))`. -/
def seq_ratio (a b : List Char) : SRat :=
  if a = [] && b = [] then ⟨1, 1⟩
  else if a = [] || b = [] then ⟨0, 1⟩
  else ⟨2 * (ratcliffMatches a b : Int), ((a.length : Int) + (b.length : Int))⟩

/-! ### `damerau_levenshtein` (matcher.py lines 60–99)

Dynamic programming over a `(la+1) × (lb+1)` matrix, rows computed left to
right, with the restricted (adjacent-transposition) rule and the two early
exits of the source: the initial length-gap bound and the per-row
`min(d[i]) > max_dist` check. -/

/-- Minimum of a row of the DP matrix (`min(d[i])`). -/
def rowMin : List Nat → Nat
  | [] => 0
  | x :: xs => xs.foldl min x

/-- Entries `d[i][1..lb]` of row `i`, given row `i-1` (`prev`), row `i-2`
(`prev2`, only read when `1 < i`), the current character `ai = a[i-1]`,
`aprev = a[i-2]`, the running left neighbour and the previous `b` character. -/
def dlRowGo (ai : Char) (aprev : Option Char) (i : Nat) (prev prev2 : List Nat) :
    List Char → Nat → Nat → Option Char → List Nat
  | [], _, _, _ => []
  | c :: rest, j, left, bprev =>
    let cost := if ai = c then 0 else 1
    let base := min (prev.getD j 0 + 1) (min (left + 1) (prev.getD (j - 1) 0 + cost))
    let val :=
      if 1 < i && 1 < j then
        match bprev, aprev with
        | some bp, some ap => if ai = bp && ap = c then min base (prev2.getD (j - 2) 0 + 1) else base
        | _, _ => base
      else base
    val :: dlRowGo ai aprev i prev prev2 rest (j + 1) val (some c)

/-- The row loop of `damerau_levenshtein`: walk the characters of `a` with
`i = 1, 2, …`, keeping the previous two rows; after each row apply the
source's early exit `min(d[i]) > max_dist`. -/
def dlLoop (b : List Char) (maxd : Option Nat) :
    List Char → Option Char → Nat → List Nat → List Nat → Nat
  | [], _, _, prev, _ => prev.getLastD 0
  | ai :: arest, aprev, i, prev, prev2 =>
    let row := i :: dlRowGo ai aprev i prev prev2 b 1 i Option.none
    match maxd with
    | some m =>
      if m < rowMin row then m + 1
      else dlLoop b maxd arest (some ai) (i + 1) row prev
    | Option.none => dlLoop b maxd arest (some ai) (i + 1) row prev

/-- `damerau_levenshtein` (matcher.py lines 60–99). -/
def damerau_levenshtein (a b : List Char) (max_dist : Option Nat) : Nat :=
  if a = b then 0
  else if a = [] then b.length
  else if b = [] then a.length
  else
    match max_dist with
    | some m =>
      if m < ((a.length : Int) - (b.length : Int)).natAbs then m + 1
      else dlLoop b max_dist a Option.none 1 (List.range (b.length + 1)) []
    | Option.none => dlLoop b Option.none a Option.none 1 (List.range (b.length + 1)) []

/-! ### ConceptMatcher (matcher.py lines 106–244) -/

/-- `MatchResult` (matcher.py lines 106–113); scores as exact fractions. -/
structure MatchResult where
  uri : String
  kind : String
  label : String
  score : SRat
  reason : String
  matched_surface : String
deriving DecidableEq

/-- One concept record of the lexicon: the `kind`, `label` and `surfaces`
entries of `lexicon["concepts"][uri]` (each may be missing). -/
structure ConceptMeta where
  kind : Option String
  label : Option String
  surfaces : Option (List String)
deriving DecidableEq

/-- The lexicon dictionary: `abbrevs` models the `"abbrev"` key and
`concepts` the `"concepts"` key (each may be missing). -/
structure Lexicon where
  abbrevs : Option (Dict String (List String))
  concepts : Option (Dict String ConceptMeta)
deriving DecidableEq

/-- Python `x or default` for an optional string (empty string is falsy). -/
def orElseStr (o : Option String) (d : String) : String :=
  match o with
  | some s => if s = "" then d else s
  | Option.none => d

/-- The compiled-surface tuples `(uri, kind, label, surf, toks, ns)` of
`self._compiled`. -/
structure CompiledEntry where
  uri : String
  kind : String
  label : String
  surf : String
  toks : List String
  ns : String
deriving DecidableEq

/-- The entries contributed by one concept: `label` is prepended to its
surfaces, duplicates removed first-occurrence-first (`dict.fromkeys`). -/
def compileConcept (uri : String) (meta : ConceptMeta) : List CompiledEntry :=
  let kind := orElseStr meta.kind "other"
  let label := orElseStr meta.label uri
  let surfaces2 := dedupFirst (label :: meta.surfaces.getD [])
  surfaces2.map (fun surf => ⟨uri, kind, label, surf, tokenize surf, normalize_text surf⟩)

/-- `self._compiled`: all concepts' surface tuples in lexicon order. -/
def matcherCompiled (lex : Lexicon) : List CompiledEntry :=
  (lex.concepts.getD []).flatMap (fun kv => compileConcept kv.1 kv.2)

/-- `self._abbrev`: abbreviation table with normalized keys and normalized
expansion phrases (later duplicate normalized keys overwrite). -/
def matcherAbbrev (lex : Lexicon) : Dict String (List String) :=
  (lex.abbrevs.getD []).foldl
    (fun acc kv => dictSet acc (normalize_text kv.1) (kv.2.map normalize_text)) []

/-- `ConceptMatcher.expand_abbrev` (matcher.py lines 153–160). -/
def expand_abbrev (lex : Lexicon) (query : String) : List String :=
  let qn := normalize_text query
  if qn = "" then []
  else
    match dictGet (matcherAbbrev lex) qn with
    | some v => v
    | Option.none => []

/-- Outcome of scoring one (query form, surface) pair inside the `match`
loop: skipped, recorded through the exact branch, or recorded through the
fuzzy branch (the two branches combine into `scored` differently). -/
inductive PairOutcome where
  | skip
  | exactRes (r : MatchResult)
  | fuzzyRes (r : MatchResult)
deriving DecidableEq

/-- The body of the inner loop of `ConceptMatcher.match` (matcher.py lines
182–238) for one query form and one compiled surface: kind filter, exact
short-circuit, the four signals, length penalty, guardrail, threshold and
reason label. -/
def pairAbBonus (q_init : String) (e : CompiledEntry) : SRat :=
  if q_init ≠ "" && q_init = initialism e.toks then ⟨12, 100⟩ else ⟨0, 1⟩

/-- The edit-distance bonus (matcher.py lines 205–210), computed only behind
the cost-saving gate `phrase_sim > 0.70 or tok_overlap > 0.50`. -/
def pairEditBonus (q_norm : String) (e : CompiledEntry) (phrase_sim tok_overlap : SRat) : SRat :=
  if SRat.lt ⟨70, 100⟩ phrase_sim || SRat.lt ⟨50, 100⟩ tok_overlap then
    let maxd := if q_norm.length ≤ 10 then 2 else 3
    let d := damerau_levenshtein q_norm.data e.ns.data (some maxd)
    if d ≤ maxd then ⟨((maxd - d : Nat) : Int) * 3, 100⟩ else ⟨0, 1⟩
  else ⟨0, 1⟩

/-- The length penalty (matcher.py lines 213–215). -/
def pairLenPen (q_toks : List String) (e : CompiledEntry) (tok_overlap : SRat) : SRat :=
  if q_toks.length + 3 ≤ e.toks.length && SRat.lt tok_overlap ⟨80, 100⟩ then ⟨8, 100⟩ else ⟨0, 1⟩

/-- The composite fuzzy score (matcher.py lines 217–223):
`0.62*tok_overlap + 0.32*phrase_sim + ab_bonus + edit_bonus - len_pen`. -/
def pairScore (q_norm : String) (q_toks : List String) (q_init : String)
    (e : CompiledEntry) : SRat :=
  let tok_overlap := jaccard q_toks e.toks
  let phrase_sim := seq_ratio q_norm.data e.ns.data
  SRat.sub
    (SRat.add
      (SRat.add
        (SRat.add (SRat.mul ⟨62, 100⟩ tok_overlap) (SRat.mul ⟨32, 100⟩ phrase_sim))
        (pairAbBonus q_init e))
      (pairEditBonus q_norm e phrase_sim tok_overlap))
    (pairLenPen q_toks e tok_overlap)

def evalPair (query q_raw q_norm : String) (q_toks : List String) (q_init : String)
    (restrict_kinds : Option (List String)) (min_score : SRat) (e : CompiledEntry) :
    PairOutcome :=
  if optListTruthy restrict_kinds && !((restrict_kinds.getD []).contains e.kind) then .skip
  else if q_norm = e.ns && q_norm ≠ "" then
    .exactRes ⟨e.uri, e.kind, e.label, ⟨1, 1⟩, "exact_normalized", e.surf⟩
  else
    let score := pairScore q_norm q_toks q_init e
    if SRat.eqv (jaccard q_toks e.toks) ⟨0, 1⟩ &&
        SRat.lt (seq_ratio q_norm.data e.ns.data) ⟨85, 100⟩ then .skip
    else if SRat.lt score min_score then .skip
    else
      let reason :=
        if q_raw ≠ query then "abbrev_expansion"
        else if SRat.lt ⟨0, 1⟩ (pairAbBonus q_init e) then "initialism_match"
        else "fuzzy"
      .fuzzyRes ⟨e.uri, e.kind, e.label, score, reason, e.surf⟩

/-- How one pair outcome is folded into `scored`: the exact branch keeps the
higher score (existing wins ties, as `max(old, new, key=score)` does); the
fuzzy branch replaces only on a strictly higher score. -/
def updateScored (scored : Dict (String × String) MatchResult) (o : PairOutcome) :
    Dict (String × String) MatchResult :=
  match o with
  | .skip => scored
  | .exactRes r =>
    let cur := (dictGet scored (r.uri, r.kind)).getD r
    dictSet scored (r.uri, r.kind) (if SRat.lt cur.score r.score then r else cur)
  | .fuzzyRes r =>
    match dictGet scored (r.uri, r.kind) with
    | Option.none => dictSet scored (r.uri, r.kind) r
    | some cur =>
      if SRat.lt cur.score r.score then dictSet scored (r.uri, r.kind) r else scored

/-- The query forms evaluated by `match`: the raw query plus its abbreviation
expansions, each as `(raw, normalized, tokens)`. -/
def queryForms (lex : Lexicon) (query : String) : List (String × String × List String) :=
  (query, normalize_text query, tokenize query) ::
    (expand_abbrev lex query).map (fun exp => (exp, normalize_text exp, tokenize exp))

/-- The `scored` dictionary after the double loop of `match`. -/
def scoredMap (lex : Lexicon) (query : String) (restrict_kinds : Option (List String))
    (min_score : SRat) : Dict (String × String) MatchResult :=
  (queryForms lex query).foldl
    (fun sc qf =>
      (matcherCompiled lex).foldl
        (fun sc' e =>
          updateScored sc' (evalPair query qf.1 qf.2.1 qf.2.2 (initialism qf.2.2)
            restrict_kinds min_score e)) sc) []

/-- Stable insertion into a score-descending list (an earlier-seen result
stays before a later-seen result of equal score, as Python's stable sort). -/
def insDesc (x : MatchResult) : List MatchResult → List MatchResult
  | [] => [x]
  | y :: ys => if SRat.le y.score x.score then x :: y :: ys else y :: insDesc x ys

/-- `sorted(…, key=score, reverse=True)`: stable descending sort. -/
def sortByScoreDesc : List MatchResult → List MatchResult
  | [] => []
  | x :: xs => insDesc x (sortByScoreDesc xs)

/-- Python `l[:k]` including the negative-`k` convention (`l[:-n]` drops the
last `n` elements; it is *not* empty). -/
def pySlice {α : Type} (k : Int) (l : List α) : List α :=
  if 0 ≤ k then l.take k.toNat else l.take ((l.length : Int) + k).toNat

/-- `ConceptMatcher.match` (matcher.py lines 162–244); named `matchConcepts`
because `match` is reserved in Lean. -/
def matchConcepts (lex : Lexicon) (query : String) (restrict_kinds : Option (List String))
    (top_k : Int) (min_score : SRat) : List MatchResult :=
  pySlice top_k (sortByScoreDesc (dictValues (scoredMap lex query restrict_kinds min_score)))

/-! ### Query graph data model (query_graph.py) -/

/-- `QueryNode` (query_graph.py lines 11–23). -/
structure QueryNode where
  id : Int
  rdf_class : Option String
  alias_ : Option String
  constraints : Dict String PyVal
deriving DecidableEq

/-- `QueryEdge` (query_graph.py lines 26–38). -/
structure QueryEdge where
  source_id : Int
  target_id : Int
  hops : Int
  predicates : Option (List String)
deriving DecidableEq

/-- `DataNodeInfo` (query_graph.py lines 4–7). -/
structure DataNodeInfo where
  node_id : Int
  filters : Dict String PyVal
deriving DecidableEq

/-- `QueryGraph` (query_graph.py lines 41–51). -/
structure QueryGraph where
  nodes : Dict Int QueryNode
  edges : List QueryEdge
  aliases : Dict String Int
  aliases_reverse : Dict Int String
  current_pointer : Option Int
  data_nodes : Dict Int DataNodeInfo
deriving DecidableEq

/-- `QueryGraph()` with all defaults. -/
def QueryGraph.empty : QueryGraph := ⟨[], [], [], [], Option.none, []⟩

/-- `dictContains d k` models Python `k in d`. -/
def dictContains {K V : Type} [DecidableEq K] (d : Dict K V) (k : K) : Bool :=
  (dictGet d k).isSome

/-- `QueryGraph.with_node` (query_graph.py lines 65–86): add/replace the node,
register its alias (the stringified id when the alias is absent or empty —
Python truthiness), and point at it. -/
def QueryGraph.with_node (g : QueryGraph) (node : QueryNode) : QueryGraph :=
  let aname :=
    match node.alias_ with
    | some a => if a = "" then toString node.id else a
    | Option.none => toString node.id
  { nodes := dictSet g.nodes node.id node
    edges := g.edges
    aliases := dictSet g.aliases aname node.id
    aliases_reverse := dictSet g.aliases_reverse node.id aname
    current_pointer := some node.id
    data_nodes := g.data_nodes }

/-- `QueryGraph.with_edge` (query_graph.py lines 88–99). -/
def QueryGraph.with_edge (g : QueryGraph) (edge : QueryEdge) (new_pointer : Option Int) :
    QueryGraph :=
  { g with
    edges := g.edges ++ [edge]
    current_pointer :=
      match new_pointer with
      | some p => some p
      | Option.none => g.current_pointer }

/-- `QueryGraph.with_data_node` (query_graph.py lines 53–63). -/
def QueryGraph.with_data_node (g : QueryGraph) (info : DataNodeInfo) : QueryGraph :=
  { g with data_nodes := dictSet g.data_nodes info.node_id info }

/-- `QueryGraph.resolve_alias` (query_graph.py lines 101–105). -/
def QueryGraph.resolve_alias (g : QueryGraph) (a : Option String) : Option Int :=
  match a with
  | Option.none => g.current_pointer
  | some s => dictGet g.aliases s

/-! ### Query builder (query.py) -/

/-- `Query` (query.py lines 13–26).  `cache` models the mutable `cache` dict
of the receiver (the source only ever calls `cache.clear()` on it, so its
keys suffice). -/
structure Query where
  query_graph : QueryGraph
  _next_id : Int
  cache : List String
deriving DecidableEq

/-- `Query()` with all defaults. -/
def Query.empty : Query := ⟨QueryGraph.empty, 0, []⟩

/-- `Query._new_id` (query.py lines 30–33).  Note the source's line
`self._next_id + 1` is a discarded expression (no assignment — and the
dataclass is frozen), so `_new_id` returns `_next_id` without incrementing;
the increment happens only via `_clone_with_graph(bump_id=True)`. -/
def Query._new_id (q : Query) : Int := q._next_id

/-- `Query._clone_with_graph` (query.py lines 42–46): fresh `Query` (with a
fresh empty cache) around the new graph, optionally bumping `_next_id`. -/
def Query._clone_with_graph (q : Query) (new_graph : QueryGraph) (bump_id : Bool) : Query :=
  ⟨new_graph, q._next_id + (if bump_id then 1 else 0), []⟩

/-- `Query._add_data_node` (query.py lines 48–100): create the data/leaf node
(constraints `is_data_node: True`, `path_from: path`), connect it from
`src_id` — 1 hop with `path` as the sole predicate when `path` is truthy,
otherwise an unconstrained edge of `1` or `hops` hops depending on
`force_one_hop` — or, with no source, just move the pointer; then register
its `DataNodeInfo`.  Returns the new graph and the new node id. -/
def Query._add_data_node (q : Query) (g : QueryGraph) (src_id : Option Int)
    (path _class alias_ : Option String) (hops : Int)
    (filters_dict : Option (Dict String PyVal)) (force_one_hop : Bool) :
    QueryGraph × Int :=
  let new_id := q._new_id
  let node : QueryNode :=
    { id := new_id
      rdf_class :=
        match _class with
        | some s => if s = "" then Option.none else some s
        | Option.none => Option.none
      alias_ := alias_
      constraints := [("is_data_node", PyVal.bool true),
                      ("path_from",
                        match path with
                        | some s => PyVal.str s
                        | Option.none => PyVal.none)] }
  let g2 := g.with_node node
  let g3 :=
    match src_id with
    | some sid =>
      if optStrTruthy path then
        g2.with_edge ⟨sid, new_id, 1, some [path.getD ""]⟩ (some new_id)
      else
        g2.with_edge ⟨sid, new_id, (if force_one_hop then 1 else hops), Option.none⟩ (some new_id)
    | Option.none => { g2 with current_pointer := some new_id }
  (g3.with_data_node ⟨new_id, filters_dict.getD []⟩, new_id)

/-- `Query.find_entity` (query.py lines 141–157). -/
def Query.find_entity (q : Query) (_class : String) (alias_ : Option String) : Query :=
  let node : QueryNode := ⟨q._new_id, some _class, alias_, []⟩
  q._clone_with_graph (q.query_graph.with_node node) true

/-- `Query.find_related` (query.py lines 159–198). -/
def Query.find_related (q : Query) (_class : String) (alias_ _from : Option String)
    (hops : Int) (predicates : Option (List String)) (multi_hop_predicates : Bool) :
    Except PyErr Query :=
  match q.query_graph.resolve_alias _from with
  | Option.none =>
    .error (.valueError "find_related: no source node to relate from (pointer is None and _from not set)")
  | some src_id =>
    let new_id := q._new_id
    let new_node : QueryNode := ⟨new_id, some _class, alias_, []⟩
    let g := q.query_graph.with_node new_node
    let edge : QueryEdge :=
      if optListTruthy predicates && multi_hop_predicates then
        ⟨src_id, new_id, hops, predicates⟩
      else if optListTruthy predicates && !multi_hop_predicates then
        ⟨src_id, new_id, 1, predicates⟩
      else
        ⟨src_id, new_id, hops, Option.none⟩
    .ok (q._clone_with_graph (g.with_edge edge (some new_id)) true)

/-- The edge remap of `relate_to` (query.py lines 246–253):
`other_mapping[edge.source_id]` / `[edge.target_id]` raise `KeyError` when an
endpoint of `other` is not one of its node ids. -/
def shiftEdges (mapping : Dict Int Int) : List QueryEdge → Except PyErr (List QueryEdge)
  | [] => .ok []
  | e :: rest =>
    match dictGet mapping e.source_id, dictGet mapping e.target_id with
    | some s', some t' =>
      match shiftEdges mapping rest with
      | .ok es => .ok (⟨s', t', e.hops, e.predicates⟩ :: es)
      | .error err => .error err
    | _, _ => .error (.keyError "other_mapping")

/-- The alias merge of `relate_to` (query.py lines 254–257): fold `other`'s
aliases in (last write wins), rebuilding `aliases_reverse` by dict inversion
inside the loop exactly as the source does. -/
def mergeAliases (mapping : Dict Int Int) :
    List (String × Int) → Dict String Int → Dict Int String →
    Except PyErr (Dict String Int × Dict Int String)
  | [], acc, accRev => .ok (acc, accRev)
  | (name, nid) :: rest, acc, _accRev =>
    match dictGet mapping nid with
    | some nid' =>
      let acc' := dictSet acc name nid'
      mergeAliases mapping rest acc' (invertDict acc')
    | Option.none => .error (.keyError "other_mapping")

/-- `Query.relate_to` (query.py lines 200–274).  Note the merged graph is
built by an explicit `QueryGraph(...)` call (lines 259–265) that does not
pass `data_nodes`, so the merged graph's `data_nodes` is the empty default. -/
def Query.relate_to (q other : Query) (_from _to : Option String) (hops : Int)
    (predicates : Option (List String)) : Except PyErr Query :=
  let src? :=
    match _from with
    | Option.none => q.query_graph.current_pointer
    | some a => q.query_graph.resolve_alias (some a)
  match src? with
  | Option.none => .error (.valueError "relate_to: current query has no pointer")
  | some src_id =>
    let tgt? :=
      match _to with
      | Option.none => other.query_graph.current_pointer
      | some a => other.query_graph.resolve_alias (some a)
    match tgt? with
    | Option.none => .error (.valueError "relate_to: other query has no pointer")
    | some tgt_id =>
      let max_id_self := listMaxD (dictKeys q.query_graph.nodes) (-1)
      let other_mapping : Dict Int Int :=
        other.query_graph.nodes.foldl (fun m kv => dictSet m kv.1 (max_id_self + 1 + kv.1)) []
      let merged_nodes :=
        other.query_graph.nodes.foldl
          (fun acc kv => dictSet acc (max_id_self + 1 + kv.1) kv.2) q.query_graph.nodes
      match shiftEdges other_mapping other.query_graph.edges with
      | .error err => .error err
      | .ok shifted =>
        match mergeAliases other_mapping other.query_graph.aliases
            q.query_graph.aliases q.query_graph.aliases_reverse with
        | .error err => .error err
        | .ok merged =>
          match dictGet other_mapping tgt_id with
          | Option.none => .error (.keyError "other_mapping")
          | some tgt' =>
            let merged_graph : QueryGraph :=
              { nodes := merged_nodes
                edges := q.query_graph.edges ++ shifted
                aliases := merged.1
                aliases_reverse := merged.2
                current_pointer := some src_id
                data_nodes := [] }
            let final := merged_graph.with_edge ⟨src_id, tgt', hops, predicates⟩ (some tgt')
            .ok ⟨final, max q._next_id other._next_id, []⟩

/-- The `is_all` test of `find_data`/`_select_data_node_ids`:
`x.strip().lower() in \x7b"*", "all"\x7d` for a string argument. -/
def isAllSel : Option String → Bool
  | some s =>
    if asciiLower (pyStrip s.data) = "*".data then true
    else if asciiLower (pyStrip s.data) = "all".data then true
    else false
  | Option.none => false

/-- `Query.find_data` (query.py lines 277–335).  After resolving its sources
the loop body creates the first data node and then executes
`self = Query(service=self.service, query_graph=..., _next_id=...)`
(line 329): `Query` is a frozen dataclass with no `service` field, so this
raises `AttributeError` on every call that gets past source resolution (the
locally built graph is discarded).  The `[]`-sources path would reach the
`return Query(service=self.service, ...)` at line 331 and raise likewise. -/
def Query.find_data (q : Query) (_from path _class : Option String) (hops : Int)
    (filters_dict : Option (Dict String PyVal)) (alias_ : Option String) :
    Except PyErr Query :=
  let g := q.query_graph
  if isAllSel _from then
    if g.nodes = [] then
      .error (.valueError "find_data(from=*): query graph has no nodes to expand from")
    else
      .error (.attributeError "Query object has no attribute service")
  else
    match g.resolve_alias _from with
    | Option.none =>
      .error (.valueError "find_data: no source node (set _from or ensure pointer is set)")
    | some _ =>
      .error (.attributeError "Query object has no attribute service")

/-- `Query.find_all_data` (query.py lines 337–361): a standalone data node on
an empty graph, otherwise delegate to `find_data(_from="*")`. -/
def Query.find_all_data (q : Query) (_class : Option String) (hops : Int)
    (filters_dict : Option (Dict String PyVal)) (alias_ : Option String) :
    Except PyErr Query :=
  let g := q.query_graph
  if g.nodes = [] then
    let gi := q._add_data_node g Option.none Option.none _class alias_ hops filters_dict false
    .ok (q._clone_with_graph gi.1 true)
  else
    q.find_data (some "*") Option.none _class hops filters_dict alias_

/-- `Query._select_data_node_ids` (query.py lines 102–133). -/
def Query._select_data_node_ids (q : Query) (_from : Option String) :
    Except PyErr (List Int) :=
  let g := q.query_graph
  if g.data_nodes = [] then
    .error (.valueError "No data nodes exist in the query graph to filter")
  else if isAllSel _from then .ok (sortInts (dictKeys g.data_nodes))
  else
    match _from with
    | Option.none =>
      match g.current_pointer with
      | some pid =>
        if dictContains g.data_nodes pid then .ok [pid]
        else .ok (sortInts (dictKeys g.data_nodes))
      | Option.none => .ok (sortInts (dictKeys g.data_nodes))
    | some s =>
      match dictGet g.aliases s with
      | Option.none => .error (.valueError "filter: _from alias not found")
      | some rid =>
        if dictContains g.data_nodes rid then .ok [rid]
        else
          let attached :=
            (g.edges.filter
              (fun e => e.source_id = rid && dictContains g.data_nodes e.target_id)).map
              (fun e => e.target_id)
          if attached = [] then .ok [] else .ok (sortInts (dedupFirst attached))

/-- The filter-update loop of `filter_data_nodes` (query.py lines 377–382):
`dn2[nid]` raises `KeyError` for a target id without a registration. -/
def updateFilters (predicate : String) (value : PyVal) :
    Dict Int DataNodeInfo → List Int → Except PyErr (Dict Int DataNodeInfo)
  | dn, [] => .ok dn
  | dn, nid :: rest =>
    match dictGet dn nid with
    | Option.none => .error (.keyError "data node id")
    | some info =>
      updateFilters predicate value
        (dictSet dn nid ⟨info.node_id, dictSet info.filters predicate value⟩) rest

/-- `Query.filter_data_nodes` (query.py lines 364–392). -/
def Query.filter_data_nodes (q : Query) (predicate : String) (value : PyVal)
    (_from : Option String) : Except PyErr Query :=
  let g := q.query_graph
  match q._select_data_node_ids _from with
  | .error e => .error e
  | .ok targets =>
    if targets = [] then
      .error (.valueError "filter_data_nodes: no target data nodes selected")
    else
      match updateFilters predicate value g.data_nodes targets with
      | .error e => .error e
      | .ok dn2 => .ok (q._clone_with_graph { g with data_nodes := dn2 } false)

/-! ### `to_dict` (query.py lines 418–450) -/

/-- One entry of the `"nodes"` list of `to_dict`. -/
structure NodeDict where
  id : Int
  rdf_class : Option String
  alias_ : Option String
  constraints : Dict String PyVal
deriving DecidableEq

/-- One entry of the `"edges"` list of `to_dict` (`predicates` is `None`
when the edge's list is `None` **or empty** — Python truthiness). -/
structure EdgeDict where
  source_id : Int
  target_id : Int
  hops : Int
  predicates : Option (List String)
deriving DecidableEq

/-- One entry of the `"data_nodes"` list of `to_dict`. -/
structure DataNodeDict where
  id : Int
  alias_ : String
  filters : Dict String PyVal
deriving DecidableEq

/-- The JSON-serializable snapshot returned by `to_dict`. -/
structure QuerySnapshot where
  nodes : List NodeDict
  edges : List EdgeDict
  aliases : Dict String Int
  aliases_reverse : Dict Int String
  current_pointer : Option Int
  data_nodes : List DataNodeDict
deriving DecidableEq

/-- `Query.to_dict` (query.py lines 418–450). -/
def Query.to_dict (q : Query) : QuerySnapshot :=
  { nodes := q.query_graph.nodes.map (fun kv => ⟨kv.2.id, kv.2.rdf_class, kv.2.alias_, kv.2.constraints⟩)
    edges := q.query_graph.edges.map (fun e =>
      ⟨e.source_id, e.target_id, e.hops,
        match e.predicates with
        | some l => if l.isEmpty then Option.none else some l
        | Option.none => Option.none⟩)
    aliases := q.query_graph.aliases
    aliases_reverse := q.query_graph.aliases_reverse
    current_pointer := q.query_graph.current_pointer
    data_nodes := q.query_graph.data_nodes.map (fun kv =>
      ⟨kv.1, (dictGet q.query_graph.aliases_reverse kv.1).getD ("v" ++ toString kv.1),
        kv.2.filters⟩) }

/-! ### SPARQL compilation (query.py lines 458–560) -/

/-- `HAS_EXTERNAL_REFERENCE` (query.py line 11). -/
def HAS_EXTERNAL_REFERENCE : String :=
  "https://brickschema.org/schema/Brick/ref#hasExternalReference"

/-- The inner loop of the multi-hop constrained branch of `_edge_pattern`
(query.py lines 489–494) for one predicate: append `p` repeated `k` times
joined by `/` for each `k` from 1 to `hops`, appending `|` only while
`k < hops` — so no separator follows the last sequence of this predicate. -/
def altForPred (p : String) (hops : Nat) : String :=
  ((List.range hops).map (fun k0 =>
    let k := k0 + 1
    String.intercalate "/" (List.replicate k ("<" ++ p ++ ">")) ++
      (if k < hops then "|" else ""))).foldl (· ++ ·) ""

/-- One `{ ... }` block of the unconstrained-predicate UNION branch of
`_edge_pattern` (query.py lines 499–516): an explicit chain of `k` triples
with fresh intermediate and predicate variables. -/
def unionBlock (src_var tgt_var : String) (edge_idx k : Nat) : String :=
  let mids := (List.range (k - 1)).map (fun i => "?x_e" ++ toString edge_idx ++ "_" ++ toString (i + 1))
  let ps := (List.range k).map (fun i => "?p_e" ++ toString edge_idx ++ "_" ++ toString (i + 1))
  let triples := (List.range k).map (fun step =>
    let prev := if step = 0 then src_var else mids.getD (step - 1) ""
    let obj := if step = k - 1 then tgt_var else mids.getD step ""
    prev ++ " " ++ ps.getD step "" ++ " " ++ obj ++ " .")
  "\x7b " ++ String.intercalate " " triples ++ " \x7d"

/-- `Query._edge_pattern` (query.py lines 458–518; `self` is unused in the
source, so it is a plain function here). -/
def edge_pattern (src_var tgt_var : String) (edge : QueryEdge) (edge_idx : Nat) :
    Except PyErr String :=
  if edge.hops < 1 then
    .error (.valueError ("edge.hops must be >= 1, got " ++ toString edge.hops))
  else
    let hops := edge.hops.toNat
    let preds := (edge.predicates.getD []).filter (fun p => p ≠ "")
    if preds ≠ [] then
      let uniq := dedupFirst preds
      if hops = 1 then
        .ok (src_var ++ " (" ++ String.intercalate "|" (uniq.map (fun p => "<" ++ p ++ ">")) ++
          ") " ++ tgt_var ++ " .")
      else
        let alt := uniq.foldl (fun a p => a ++ altForPred p hops) ""
        .ok (src_var ++ " (" ++ alt ++ ") " ++ tgt_var ++ " .")
    else
      .ok (String.intercalate " UNION "
        ((List.range hops).map (fun k0 => unionBlock src_var tgt_var edge_idx (k0 + 1))))

/-- The edge loop of `to_sparql` (query.py lines 534–537): each edge's
pattern between `?v<source>` and `?v<target>`; `var_map[...]` raises
`KeyError` for an endpoint that is not a node key. -/
def edgeClauses (nodes : Dict Int QueryNode) : List QueryEdge → Nat → Except PyErr (List String)
  | [], _ => .ok []
  | e :: rest, idx =>
    if dictContains nodes e.source_id && dictContains nodes e.target_id then
      match edge_pattern ("?v" ++ toString e.source_id) ("?v" ++ toString e.target_id) e idx with
      | .error err => .error err
      | .ok s =>
        match edgeClauses nodes rest (idx + 1) with
        | .error err => .error err
        | .ok ss => .ok (s :: ss)
    else .error (.keyError "var_map")

/-- `s.startswith/in` URI sniffing of filter values (query.py lines 549–554):
`"://" in val or val.startswith("urn:")` emits a URI object, everything else
a quoted literal (numbers and booleans via `str`). -/
def strContains (s pat : String) : Bool :=
  (List.range (s.length + 1)).any (fun i => pat.data.isPrefixOf (s.data.drop i))

/-- One filter triple of a data node (query.py lines 545–554); `None` values
are skipped. -/
def filterClause (v pred : String) (val : PyVal) : Option String :=
  match val with
  | PyVal.none => Option.none
  | PyVal.str s =>
    if strContains s "://" || s.startsWith "urn:" then
      some (v ++ " <" ++ pred ++ "> <" ++ s ++ "> .")
    else
      some (v ++ " <" ++ pred ++ "> \"" ++ s ++ "\" .")
  | PyVal.int n => some (v ++ " <" ++ pred ++ "> \"" ++ toString n ++ "\" .")
  | PyVal.bool b => some (v ++ " <" ++ pred ++ "> \"" ++ (if b then "True" else "False") ++ "\" .")

/-- The data-node loop of `to_sparql` (query.py lines 540–554): the mandatory
external-reference triple plus the filter triples. -/
def dataClauses (nodes : Dict Int QueryNode) : Dict Int DataNodeInfo → Except PyErr (List String)
  | [] => .ok []
  | (nid, info) :: rest =>
    if dictContains nodes nid then
      let v := "?v" ++ toString nid
      let head := v ++ " <" ++ HAS_EXTERNAL_REFERENCE ++ "> ?ext" ++ toString nid ++ " ."
      let fcs := info.filters.filterMap (fun kv => filterClause v kv.1 kv.2)
      match dataClauses nodes rest with
      | .error err => .error err
      | .ok ss => .ok (head :: fcs ++ ss)
    else .error (.keyError "var_map")

/-- `Query.to_sparql` (query.py lines 521–560). -/
def Query.to_sparql (q : Query) : Except PyErr String :=
  let g := q.query_graph
  let select_vars := String.intercalate " " (g.nodes.map (fun kv => "?v" ++ toString kv.1))
  let tcs := g.nodes.filterMap (fun kv =>
    match kv.2.rdf_class with
    | some c => if c = "" then Option.none else some ("?v" ++ toString kv.1 ++ " a <" ++ c ++ "> .")
    | Option.none => Option.none)
  match edgeClauses g.nodes g.edges 0 with
  | .error err => .error err
  | .ok ecs =>
    match dataClauses g.nodes g.data_nodes with
    | .error err => .error err
    | .ok dcs =>
      let clauses := tcs ++ ecs ++ dcs
      let where_block := if clauses = [] then "" else String.intercalate "\n  " clauses
      .ok ("SELECT DISTINCT " ++ select_vars ++ "\nWHERE \x7b\n  " ++ where_block ++ "\n\x7d")

/-! ### The public builder operations as a single step type -/

/-- One public builder operation with its arguments. -/
inductive BuilderOp where
  | findEntity (_class : String) (alias_ : Option String)
  | findRelated (_class : String) (alias_ _from : Option String) (hops : Int)
      (predicates : Option (List String)) (multi_hop_predicates : Bool)
  | relateTo (other : Query) (_from _to : Option String) (hops : Int)
      (predicates : Option (List String))
  | findData (_from path _class : Option String) (hops : Int)
      (filters_dict : Option (Dict String PyVal)) (alias_ : Option String)
  | findAllData (_class : Option String) (hops : Int)
      (filters_dict : Option (Dict String PyVal)) (alias_ : Option String)
  | filterDataNodes (predicate : String) (value : PyVal) (_from : Option String)

/-- Run one public builder operation on a receiver.  The first component is
the receiver *after* the call: every operation's only in-place effect on the
receiver is `self.cache.clear()` (query.py lines 152, 182, 221, 287, 345,
371 — every other structure is rebuilt through fresh `dict`/`list` copies),
executed before any validation, so it happens on success and failure alike.
The second component is the operation's result. -/
def applyOp (q : Query) (op : BuilderOp) : Query × Except PyErr Query :=
  let after : Query := { q with cache := [] }
  match op with
  | .findEntity c a => (after, .ok (q.find_entity c a))
  | .findRelated c a f h p m => (after, q.find_related c a f h p m)
  | .relateTo o f t h p => (after, q.relate_to o f t h p)
  | .findData f p c h fd a => (after, q.find_data f p c h fd a)
  | .findAllData c h fd a => (after, q.find_all_data c h fd a)
  | .filterDataNodes p v f => (after, q.filter_data_nodes p v f)

/-- The Query values reachable from `Query()` by sequences of *successful*
public builder operations (`relate_to` additionally requires its other
operand to be reachable). -/
inductive Reachable : Query → Prop where
  | empty : Reachable Query.empty
  | findEntity {q : Query} (c : String) (a : Option String) :
      Reachable q → Reachable (q.find_entity c a)
  | findRelated {q q' : Query} (c : String) (a f : Option String) (h : Int)
      (p : Option (List String)) (m : Bool) :
      Reachable q → q.find_related c a f h p m = .ok q' → Reachable q'
  | relateTo {q other q' : Query} (f t : Option String) (h : Int)
      (p : Option (List String)) :
      Reachable q → Reachable other → q.relate_to other f t h p = .ok q' → Reachable q'
  | findData {q q' : Query} (f p c : Option String) (h : Int)
      (fd : Option (Dict String PyVal)) (a : Option String) :
      Reachable q → q.find_data f p c h fd a = .ok q' → Reachable q'
  | findAllData {q q' : Query} (c : Option String) (h : Int)
      (fd : Option (Dict String PyVal)) (a : Option String) :
      Reachable q → q.find_all_data c h fd a = .ok q' → Reachable q'
  | filterDataNodes {q q' : Query} (p : String) (v : PyVal) (f : Option String) :
      Reachable q → q.filter_data_nodes p v f = .ok q' → Reachable q'

/-! ### Spec-modelled reference for the multi-hop alternation (C4)

The spec (§4.3, compilation) describes the constrained multi-hop edge pattern
as *one* alternation group of all the repeated-predicate sequences.  This
definition follows the spec's words and is compared against the code's
`edge_pattern`. -/

/-- Modelled from the spec: "for every distinct predicate, for every path
length k from 1 to hops, emit that predicate repeated k times chained; all
such sequences (across all predicates and all lengths) are alternated
together in one group". -/
def specMultiHopAlternation (preds : List String) (hops : Nat) : String :=
  String.intercalate "|"
    ((dedupFirst preds).flatMap (fun p =>
      (List.range hops).map (fun k0 =>
        String.intercalate "/" (List.replicate (k0 + 1) ("<" ++ p ++ ">")))))

/-! ## Claim theorems -/

/-- **C5.** Builder immutability: running any public builder operation on a
query leaves the receiver's structural snapshot (`to_dict`) unchanged —
whether the operation returns a new Query or fails, the only in-place effect
on the receiver is clearing its derived-result cache, which `to_dict` does
not read. -/
theorem builder_ops_preserve_receiver_snapshot (q : Query) (op : BuilderOp) :
    ((applyOp q op).1).to_dict = q.to_dict := by
  cases op <;> rfl

/-- **C1.** The claim describes `find_data` resolving sources and attaching
data nodes, but the code cannot do so: after building the first data node the
loop executes `Query(service=self.service, ...)` (query.py line 329) and
`Query` has no `service` attribute, so *every* `find_data` call that passes
source resolution raises `AttributeError` — here evaluated on a single-alias
source and on the `"*"` selector over a non-empty graph. -/
theorem find_data_always_raises_attribute_error :
    (Query.empty.find_entity "Valve" (some "valve")).find_data
        Option.none Option.none Option.none 3 Option.none Option.none
      = .error (.attributeError "Query object has no attribute service") ∧
    (Query.empty.find_entity "Valve" (some "valve")).find_data
        (some "*") Option.none Option.none 3 Option.none Option.none
      = .error (.attributeError "Query object has no attribute service") ∧
    (Query.empty.find_entity "Valve" (some "valve")).find_data
        (some "All") Option.none Option.none 3 Option.none Option.none
      = .error (.attributeError "Query object has no attribute service") :=
  ⟨rfl, rfl, rfl⟩

/-- **C4.** For `hops = 2` and predicate set `["p", "q"]` the code emits
`(<p>|<p>/<p><q>|<q>/<q>)` — the last `p`-sequence and the first `q`-sequence
are concatenated with no `|` between the predicate blocks (query.py lines
489–494 only append `|` while `k < hops`), which differs from the spec's
single alternation of all sequences; for a single distinct predicate the two
agree, as in the claim's `hops = 2`, `["p"]` instance. -/
theorem edge_pattern_misses_separator_between_predicate_blocks :
    edge_pattern "?v0" "?v1" ⟨0, 1, 2, some ["p", "q"]⟩ 0
      = .ok "?v0 (<p>|<p>/<p><q>|<q>/<q>) ?v1 ." ∧
    "?v0 (<p>|<p>/<p><q>|<q>/<q>) ?v1 ." ≠
      "?v0 (" ++ specMultiHopAlternation ["p", "q"] 2 ++ ") ?v1 ." ∧
    edge_pattern "?v0" "?v1" ⟨0, 1, 2, some ["p"]⟩ 0
      = .ok ("?v0 (" ++ specMultiHopAlternation ["p"] 2 ++ ") ?v1 .") :=
  ⟨rfl, by decide, rfl⟩

/-- **C9.** (counterexample) The claim says a non-positive hop count passed
to `find_related` is a validation error surfaced immediately by that
operation; in the code `find_related` performs no hop validation and
succeeds with `hops = 0`. -/
theorem find_related_accepts_nonpositive_hops :
    ((Query.empty.find_entity "Valve" (some "valve")).find_related
        "Pump" (some "pump") Option.none 0 Option.none false).isOk = true :=
  rfl

/-- **C9.** (amended) A non-positive hop count is *not* validated by the
builder operation: `find_related` succeeds for any `hops` whenever its source
resolves; the error surfaces only at compilation time, where `_edge_pattern`
raises `ValueError` for any edge with `hops < 1` — as on the concrete
`hops = 0` query, whose `to_sparql` fails with exactly that error. -/
theorem nonpositive_hops_error_deferred_to_compilation :
    (∀ (q : Query) (c : String) (a f : Option String) (h : Int)
        (p : Option (List String)) (m : Bool) (src : Int),
        q.query_graph.resolve_alias f = some src →
        ∃ q', q.find_related c a f h p m = .ok q') ∧
    (∀ (sv tv : String) (e : QueryEdge) (i : Nat), e.hops < 1 →
        edge_pattern sv tv e i
          = .error (.valueError ("edge.hops must be >= 1, got " ++ toString e.hops))) ∧
    ((Query.empty.find_entity "Valve" (some "valve")).find_related
        "Pump" (some "pump") Option.none 0 Option.none false).bind Query.to_sparql
      = .error (.valueError "edge.hops must be >= 1, got 0") := by
  refine ⟨?_, ?_, rfl⟩
  · intro q c a f h p m src hres
    unfold Query.find_related
    rw [hres]
    exact ⟨_, rfl⟩
  · intro sv tv e i hlt
    unfold edge_pattern
    rw [if_pos hlt]

/-- **C9.** (witness for the amended theorem) -/
theorem nonpositive_hops_error_deferred_to_compilation_witness :
    (∃ q', (Query.empty.find_entity "Valve" (some "valve")).find_related
        "Pump" (some "pump") Option.none 0 Option.none false = .ok q') ∧
    edge_pattern "?a" "?b" ⟨0, 1, 0, Option.none⟩ 0
      = .error (.valueError "edge.hops must be >= 1, got 0") :=
  ⟨nonpositive_hops_error_deferred_to_compilation.1
      (Query.empty.find_entity "Valve" (some "valve")) "Pump" (some "pump")
      Option.none 0 Option.none false 0 rfl,
    nonpositive_hops_error_deferred_to_compilation.2.1 "?a" "?b" ⟨0, 1, 0, Option.none⟩ 0
      (by decide)⟩

/-! ### Helper lemmas: normalization idempotence (C10) -/

theorem toNat_ofNat_valid {n : Nat} (h : n < 0xd800) : (Char.ofNat n).toNat = n := by
  rw [Char.ofNat, dif_pos (Or.inl h)]
  rfl

theorem isUpperC_asciiLowerChar (c : Char) : isUpperC (asciiLowerChar c) = false := by
  unfold asciiLowerChar
  by_cases h : isUpperC c = true
  · rw [if_pos h]
    simp only [isUpperC, Bool.and_eq_true, decide_eq_true_eq] at h
    have hv : cp c + 32 < 0xd800 := by omega
    have ht : cp (Char.ofNat (cp c + 32)) = cp c + 32 := toNat_ofNat_valid hv
    simp only [isUpperC, Bool.and_eq_false_iff, decide_eq_false_iff_not, ht]
    omega
  · rw [if_neg h]
    exact Bool.eq_false_iff.mpr h

theorem isWordC_cp_lt (c : Char) (h : isWordC c = true) : cp c < 128 := by
  simp only [isWordC, isDigitC, isLowerC, isUpperC, Bool.or_eq_true, Bool.and_eq_true,
    decide_eq_true_eq] at h
  omega

theorem isWordC_not_space (c : Char) (h : isWordC c = true) : isPySpace c = false := by
  simp only [isWordC, isDigitC, isLowerC, isUpperC, Bool.or_eq_true, Bool.and_eq_true,
    decide_eq_true_eq] at h
  simp only [isPySpace, Bool.or_eq_false_iff, Bool.and_eq_false_iff]
  refine ⟨⟨⟨⟨⟨⟨⟨?_, ?_⟩, ?_⟩, ?_⟩, ?_⟩, ?_⟩, ?_⟩, ?_⟩ <;> simp only [decide_eq_false_iff_not] <;> omega

theorem isWordC_lowerDigit (c : Char) (hw : isWordC c = true) (hu : isUpperC c = false) :
    isLowerDigitC c = true := by
  simp only [isWordC, isDigitC, isLowerC, isUpperC, Bool.or_eq_true, Bool.and_eq_true,
    decide_eq_true_eq] at hw
  simp only [isUpperC, Bool.and_eq_false_iff, decide_eq_false_iff_not] at hu
  simp only [isLowerDigitC, isLowerC, isDigitC, Bool.or_eq_true, Bool.and_eq_true,
    decide_eq_true_eq]
  omega

theorem nfkcChar_id (c : Char) (h : cp c < 128) : nfkcChar c = [c] := by
  unfold nfkcChar
  rw [if_neg (by omega), if_neg (by omega), if_neg (by omega), if_neg (by omega)]

theorem nfkdChar_id (c : Char) (h : cp c < 128) : nfkdChar c = [c] := by
  unfold nfkdChar
  rw [if_neg (by omega), if_neg (by omega), if_neg (by omega), if_neg (by omega)]

theorem isCombining_ascii (c : Char) (h : cp c < 128) : isCombining c = false := by
  simp only [isCombining, Bool.and_eq_false_iff, decide_eq_false_iff_not]
  omega

theorem flatMap_id_of {α : Type} (f : α → List α) (l : List α)
    (h : ∀ c ∈ l, f c = [c]) : l.flatMap f = l := by
  induction l with
  | nil => rfl
  | cons c rest ih =>
    rw [List.flatMap_cons, h c (by simp), ih (fun x hx => h x (by simp [hx])),
      List.singleton_append]

theorem filter_id_of {α : Type} (p : α → Bool) (l : List α)
    (h : ∀ c ∈ l, p c = true) : l.filter p = l :=
  List.filter_eq_self.mpr h

theorem map_id_of {α : Type} (f : α → α) (l : List α)
    (h : ∀ c ∈ l, f c = c) : l.map f = l := by
  induction l with
  | nil => rfl
  | cons c rest ih =>
    simp only [List.map_cons, h c (by simp)]
    rw [ih (fun x hx => h x (by simp [hx]))]

theorem wordRunsAux_word_prefix (t : List Char) :
    ∀ (rest acc : List Char), (∀ c ∈ t, isWordC c = true) →
    wordRunsAux (t ++ rest) acc = wordRunsAux rest (t.reverse ++ acc) := by
  induction t with
  | nil => intro rest acc _; simp
  | cons c t' ih =>
    intro rest acc ht
    have hc : isWordC c = true := ht c (by simp)
    have step : wordRunsAux ((c :: t') ++ rest) acc = wordRunsAux (t' ++ rest) (c :: acc) := by
      simp [wordRunsAux, hc]
    rw [step, ih rest (c :: acc) (fun x hx => ht x (by simp [hx]))]
    simp

theorem wordRunsAux_space (rest acc : List Char) :
    wordRunsAux (' ' :: rest) acc =
      if acc = [] then wordRunsAux rest [] else acc.reverse :: wordRunsAux rest [] := by
  have : isWordC ' ' = false := by decide
  simp only [wordRunsAux, this, Bool.false_eq_true, if_false]

theorem wordRunsAux_chars (l : List Char) :
    ∀ (acc : List Char), (∀ c ∈ acc, isWordC c = true ∧ isUpperC c = false) →
    (∀ c ∈ l, isUpperC c = false) →
    ∀ t ∈ wordRunsAux l acc, ∀ c ∈ t, isWordC c = true ∧ isUpperC c = false := by
  induction l with
  | nil =>
    intro acc hacc _ t ht c hc
    by_cases he : acc = []
    · simp [wordRunsAux, he] at ht
    · simp only [wordRunsAux, he, if_false] at ht
      simp only [List.mem_singleton] at ht
      subst ht
      exact hacc c (List.mem_reverse.mp hc)
  | cons d rest ih =>
    intro acc hacc hl t ht c hc
    by_cases hw : isWordC d = true
    · simp only [wordRunsAux, hw, if_true] at ht
      refine ih (d :: acc) ?_ (fun x hx => hl x (by simp [hx])) t ht c hc
      intro x hx
      rcases List.mem_cons.mp hx with hx | hx
      · exact hx ▸ ⟨hw, hl d (by simp)⟩
      · exact hacc x hx
    · simp only [wordRunsAux, hw, Bool.false_eq_true, if_false] at ht
      by_cases he : acc = []
      · rw [if_pos he] at ht
        exact ih [] (by simp) (fun x hx => hl x (by simp [hx])) t ht c hc
      · rw [if_neg he] at ht
        rcases List.mem_cons.mp ht with ht | ht
        · subst ht
          exact hacc c (List.mem_reverse.mp hc)
        · exact ih [] (by simp) (fun x hx => hl x (by simp [hx])) t ht c hc

theorem wordRunsAux_nonempty (l : List Char) :
    ∀ (acc t : List Char), t ∈ wordRunsAux l acc → t ≠ [] := by
  induction l with
  | nil =>
    intro acc t ht
    by_cases he : acc = []
    · simp [wordRunsAux, he] at ht
    · simp only [wordRunsAux, he, if_false, List.mem_singleton] at ht
      subst ht
      simpa using he
  | cons d rest ih =>
    intro acc t ht
    by_cases hw : isWordC d = true
    · simp only [wordRunsAux, hw, if_true] at ht
      exact ih (d :: acc) t ht
    · simp only [wordRunsAux, hw, Bool.false_eq_true, if_false] at ht
      by_cases he : acc = []
      · rw [if_pos he] at ht
        exact ih [] t ht
      · rw [if_neg he] at ht
        rcases List.mem_cons.mp ht with ht | ht
        · subst ht
          simpa using he
        · exact ih [] t ht

theorem wordRuns_joinSp (toks : List (List Char))
    (hg : ∀ t ∈ toks, t ≠ [] ∧ ∀ c ∈ t, isWordC c = true) :
    wordRuns (joinSp toks) = toks := by
  induction toks with
  | nil => rfl
  | cons t ts ih =>
    cases ts with
    | nil =>
      have ht := hg t (by simp)
      show wordRunsAux (joinSp [t]) [] = [t]
      have : joinSp [t] = t ++ [] := by simp [joinSp]
      rw [this, wordRunsAux_word_prefix t [] [] ht.2]
      simp only [wordRunsAux, List.append_nil]
      rw [if_neg (by simpa using ht.1)]
      simp
    | cons t2 ts2 =>
      have ht := hg t (by simp)
      show wordRunsAux (joinSp (t :: t2 :: ts2)) [] = t :: t2 :: ts2
      have hj : joinSp (t :: t2 :: ts2) = t ++ ' ' :: joinSp (t2 :: ts2) := rfl
      rw [hj, wordRunsAux_word_prefix t (' ' :: joinSp (t2 :: ts2)) [] ht.2,
        wordRunsAux_space]
      rw [if_neg (by simpa using ht.1)]
      simp only [List.append_nil, List.reverse_reverse]
      have ih' := ih (fun x hx => hg x (by simp [hx]))
      unfold wordRuns at ih'
      rw [ih']

theorem joinSp_chars (toks : List (List Char)) (Q : Char → Prop)
    (hq : ∀ t ∈ toks, ∀ c ∈ t, Q c) (hsp : Q ' ') :
    ∀ c ∈ joinSp toks, Q c := by
  induction toks with
  | nil => simp [joinSp]
  | cons t ts ih =>
    cases ts with
    | nil =>
      intro c hc
      exact hq t (by simp) c hc
    | cons t2 ts2 =>
      intro c hc
      have hj : joinSp (t :: t2 :: ts2) = t ++ ' ' :: joinSp (t2 :: ts2) := rfl
      rw [hj] at hc
      rcases List.mem_append.mp hc with hc | hc
      · exact hq t (by simp) c hc
      · rcases List.mem_cons.mp hc with hc | hc
        · exact hc ▸ hsp
        · exact ih (fun x hx => hq x (by simp [hx])) c hc

theorem joinSp_head (t : List Char) (ts : List (List Char)) (c : Char) (t' : List Char)
    (he : t = c :: t') : ∃ l', joinSp (t :: ts) = c :: l' := by
  cases ts with
  | nil => exact ⟨t', by simp [joinSp, he]⟩
  | cons t2 ts2 =>
    refine ⟨t' ++ ' ' :: joinSp (t2 :: ts2), ?_⟩
    show t ++ ' ' :: joinSp (t2 :: ts2) = c :: (t' ++ ' ' :: joinSp (t2 :: ts2))
    rw [he]
    simp

theorem joinSp_last_word (toks : List (List Char))
    (hg : ∀ t ∈ toks, t ≠ [] ∧ ∀ c ∈ t, isWordC c = true) (hne : toks ≠ []) :
    ∃ c l', (joinSp toks).reverse = c :: l' ∧ isWordC c = true := by
  induction toks with
  | nil => exact absurd rfl hne
  | cons t ts ih =>
    cases ts with
    | nil =>
      have ht := hg t (by simp)
      have hr : t.reverse ≠ [] := by simpa using ht.1
      obtain ⟨c, l', hcl⟩ := List.exists_cons_of_ne_nil hr
      refine ⟨c, l', ?_, ?_⟩
      · simpa [joinSp] using hcl
      · have : c ∈ t.reverse := by simp [hcl]
        exact ht.2 c (List.mem_reverse.mp this)
    | cons t2 ts2 =>
      obtain ⟨c, l', hcl, hw⟩ := ih (fun x hx => hg x (by simp [hx])) (by simp)
      have hj : joinSp (t :: t2 :: ts2) = t ++ ' ' :: joinSp (t2 :: ts2) := rfl
      refine ⟨c, l' ++ ' ' :: t.reverse, ?_, hw⟩
      rw [hj]
      simp only [List.reverse_append, List.reverse_cons]
      rw [hcl]
      simp

theorem dropWhile_cons_false {p : Char → Bool} (c : Char) (l : List Char)
    (h : p c = false) : (c :: l).dropWhile p = c :: l := by
  simp [List.dropWhile_cons, h]

theorem pyStrip_joinSp (toks : List (List Char))
    (hg : ∀ t ∈ toks, t ≠ [] ∧ ∀ c ∈ t, isWordC c = true) :
    pyStrip (joinSp toks) = joinSp toks := by
  cases toks with
  | nil => rfl
  | cons t ts =>
    have ht := hg t (by simp)
    obtain ⟨c, t', hct⟩ := List.exists_cons_of_ne_nil ht.1
    obtain ⟨l', hj⟩ := joinSp_head t ts c t' hct
    have hcw : isWordC c = true := ht.2 c (by simp [hct])
    have h1 : (joinSp (t :: ts)).dropWhile isPySpace = joinSp (t :: ts) := by
      rw [hj]
      exact dropWhile_cons_false c l' (isWordC_not_space c hcw)
    obtain ⟨d, l'', hdl, hdw⟩ := joinSp_last_word (t :: ts) hg (by simp)
    unfold pyStrip
    rw [h1, hdl, dropWhile_cons_false d l'' (isWordC_not_space d hdw), ← hdl]
    simp

theorem wordC_not_underscore_dash (c : Char) (h : isWordC c = true) :
    (c = '_' || c = '-') = false := by
  simp only [Bool.or_eq_false_iff, decide_eq_false_iff_not]
  constructor
  · intro he
    subst he
    exact absurd h (by decide)
  · intro he
    subst he
    exact absurd h (by decide)

theorem camelSplit_id (l : List Char) (h : ∀ c ∈ l, isUpperC c = false) :
    camelSplit l = l := by
  induction l with
  | nil => rfl
  | cons c rest ih =>
    cases rest with
    | nil => rfl
    | cons c2 rest2 =>
      have h2 : isUpperC c2 = false := h c2 (by simp)
      have hcond : (isLowerDigitC c && isUpperC c2) = false := by simp [h2]
      show (if isLowerDigitC c && isUpperC c2 then c :: ' ' :: camelSplit (c2 :: rest2)
        else c :: camelSplit (c2 :: rest2)) = c :: c2 :: rest2
      rw [hcond]
      simp only [Bool.false_eq_true, if_false]
      rw [ih (fun x hx => h x (by simp [hx]))]

/-- The character classes produced by a normalization pass: lowercase-or-digit
tokens separated by single spaces. -/
def goodToks (toks : List (List Char)) : Prop :=
  ∀ t ∈ toks, t ≠ [] ∧ ∀ c ∈ t, isWordC c = true ∧ isUpperC c = false

theorem normChars_goodToks (l : List Char) :
    goodToks (wordRuns (asciiLower (splitIdentifier (stripDiacritics (nfkc (pyStrip l)))))) := by
  intro t ht
  refine ⟨wordRunsAux_nonempty _ [] t ht, ?_⟩
  intro c hc
  refine wordRunsAux_chars _ [] (by simp) ?_ t ht c hc
  intro x hx
  obtain ⟨y, _, hy⟩ := List.mem_map.mp hx
  exact hy ▸ isUpperC_asciiLowerChar y

theorem normChars_joinSp_good (toks : List (List Char)) (hg : goodToks toks) :
    normChars (joinSp toks) = joinSp toks := by
  have hg' : ∀ t ∈ toks, t ≠ [] ∧ ∀ c ∈ t, isWordC c = true :=
    fun t ht => ⟨(hg t ht).1, fun c hc => ((hg t ht).2 c hc).1⟩
  have hchars : ∀ c ∈ joinSp toks, (isWordC c = true ∧ isUpperC c = false) ∨ c = ' ' := by
    refine joinSp_chars toks _ ?_ (Or.inr rfl)
    intro t ht c hc
    exact Or.inl ((hg t ht).2 c hc)
  have hlt : ∀ c ∈ joinSp toks, cp c < 128 := by
    intro c hc
    rcases hchars c hc with ⟨hw, _⟩ | hsp
    · exact isWordC_cp_lt c hw
    · subst hsp; decide
  have hup : ∀ c ∈ joinSp toks, isUpperC c = false := by
    intro c hc
    rcases hchars c hc with ⟨_, hu⟩ | hsp
    · exact hu
    · subst hsp; decide
  unfold normChars
  rw [pyStrip_joinSp toks hg']
  rw [show nfkc (joinSp toks) = joinSp toks from
    flatMap_id_of _ _ (fun c hc => nfkcChar_id c (hlt c hc))]
  rw [show stripDiacritics (joinSp toks) = joinSp toks from by
    unfold stripDiacritics
    rw [flatMap_id_of _ _ (fun c hc => nfkdChar_id c (hlt c hc))]
    exact filter_id_of _ _ (fun c hc => by
      simp [isCombining_ascii c (hlt c hc)])]
  rw [show splitIdentifier (joinSp toks) = joinSp toks from by
    unfold splitIdentifier
    rw [camelSplit_id _ hup]
    exact map_id_of _ _ (fun c hc => by
      rcases hchars c hc with ⟨hw, _⟩ | hsp
      · rw [wordC_not_underscore_dash c hw]
        simp
      · subst hsp; rfl)]
  rw [show asciiLower (joinSp toks) = joinSp toks from
    map_id_of _ _ (fun c hc => by unfold asciiLowerChar; rw [hup c hc]; simp)]
  rw [wordRuns_joinSp toks hg']

/-- **C10.** Text normalization is idempotent: for every string `s`,
`normalize_text (normalize_text s) = normalize_text s` — the output of a
normalization pass consists of lowercase/digit ASCII tokens joined by single
spaces, on which every stage of the pipeline is the identity. -/
theorem normalize_text_idempotent (s : String) :
    normalize_text (normalize_text s) = normalize_text s := by
  show String.mk (normChars (String.mk (normChars s.data)).data) = String.mk (normChars s.data)
  have hd : (String.mk (normChars s.data)).data = normChars s.data := rfl
  rw [hd]
  have : normChars (normChars s.data) = normChars s.data := by
    have hg := normChars_goodToks s.data
    exact normChars_joinSp_good _ hg
  rw [this]

/-! ### Helper lemmas: the matcher's scored map and ranking (C7, C8) -/

theorem SRat.le_refl_true (a : SRat) : SRat.le a a = true := by
  simp [SRat.le]

theorem SRat.le_of_lt {a b : SRat} (h : SRat.lt a b = true) : SRat.le a b = true := by
  simp only [SRat.lt, decide_eq_true_eq] at h
  simp only [SRat.le, decide_eq_true_eq]
  omega

theorem SRat.not_le_of_lt {a b : SRat} (h : SRat.lt a b = true) : SRat.le b a = false := by
  simp only [SRat.lt, decide_eq_true_eq] at h
  simp only [SRat.le, decide_eq_false_iff_not]
  omega

theorem SRat.le_of_not_lt {a b : SRat} (h : SRat.lt a b = false) : SRat.le b a = true := by
  simp only [SRat.lt, decide_eq_false_iff_not] at h
  simp only [SRat.le, decide_eq_true_eq]
  omega

theorem dictGet_mem_values {K V : Type} [DecidableEq K] (d : Dict K V) (k : K) (v : V)
    (h : dictGet d k = some v) : v ∈ dictValues d := by
  induction d with
  | nil => simp [dictGet] at h
  | cons kv rest ih =>
    unfold dictGet at h
    by_cases hk : k = kv.1
    · rw [if_pos hk] at h
      cases h
      exact List.mem_cons_self _ _
    · rw [if_neg hk] at h
      exact List.mem_cons_of_mem _ (ih h)

theorem mem_values_dictSet {K V : Type} [DecidableEq K] (d : Dict K V) (k : K) (v x : V)
    (hx : x ∈ dictValues (dictSet d k v)) : x = v ∨ x ∈ dictValues d := by
  induction d with
  | nil =>
    simp [dictSet, dictValues] at hx
    exact Or.inl hx
  | cons kv rest ih =>
    unfold dictSet at hx
    by_cases hk : k = kv.1
    · rw [if_pos hk] at hx
      rcases List.mem_cons.mp hx with hx | hx
      · exact Or.inl hx
      · exact Or.inr (List.mem_cons_of_mem _ hx)
    · rw [if_neg hk] at hx
      rcases List.mem_cons.mp hx with hx | hx
      · exact Or.inr (hx ▸ List.mem_cons_self _ _)
      · rcases ih hx with h | h
        · exact Or.inl h
        · exact Or.inr (List.mem_cons_of_mem _ h)

theorem evalPair_exactRes (query q_raw q_norm : String) (q_toks : List String)
    (q_init : String) (rk : Option (List String)) (ms : SRat) (e : CompiledEntry)
    (r : MatchResult) (h : evalPair query q_raw q_norm q_toks q_init rk ms e = .exactRes r) :
    r.score = ⟨1, 1⟩ ∧ r.reason = "exact_normalized" := by
  simp only [evalPair] at h
  split at h
  · exact absurd h (by simp)
  split at h
  · cases h
    exact ⟨rfl, rfl⟩
  split at h
  · exact absurd h (by simp)
  split at h
  · exact absurd h (by simp)
  · exact absurd h (by simp)

theorem evalPair_fuzzyRes (query q_raw q_norm : String) (q_toks : List String)
    (q_init : String) (rk : Option (List String)) (ms : SRat) (e : CompiledEntry)
    (r : MatchResult) (h : evalPair query q_raw q_norm q_toks q_init rk ms e = .fuzzyRes r) :
    SRat.lt r.score ms = false := by
  simp only [evalPair] at h
  split at h
  · exact absurd h (by simp)
  split at h
  · exact absurd h (by simp)
  split at h
  · exact absurd h (by simp)
  split at h
  · exact absurd h (by simp)
  · rename_i hguard hms
    cases h
    exact Bool.not_eq_true _ ▸ Bool.of_not_eq_true hms

theorem updateScored_values (sc : Dict (String × String) MatchResult) (o : PairOutcome)
    (P : MatchResult → Prop) (hP : ∀ v ∈ dictValues sc, P v)
    (hex : ∀ r, o = .exactRes r → P r) (hfz : ∀ r, o = .fuzzyRes r → P r) :
    ∀ v ∈ dictValues (updateScored sc o), P v := by
  intro v hv
  cases o with
  | skip => exact hP v hv
  | exactRes r =>
    have hr : P r := hex r rfl
    unfold updateScored at hv
    rcases mem_values_dictSet _ _ _ _ hv with hv | hv
    · subst hv
      split
      · exact hr
      · rcases hg : dictGet sc (r.uri, r.kind) with _ | cur
        · simpa [hg] using hr
        · simpa [hg] using hP _ (dictGet_mem_values _ _ _ hg)
    · exact hP v hv
  | fuzzyRes r =>
    have hr : P r := hfz r rfl
    rcases hg : dictGet sc (r.uri, r.kind) with _ | cur
    · simp only [updateScored, hg] at hv
      rcases mem_values_dictSet _ _ _ _ hv with hv | hv
      · exact hv ▸ hr
      · exact hP v hv
    · simp only [updateScored, hg] at hv
      split at hv
      · rcases mem_values_dictSet _ _ _ _ hv with hv | hv
        · exact hv ▸ hr
        · exact hP v hv
      · exact hP v hv

theorem foldl_preserves {α β : Type} (P : α → Prop) (f : α → β → α)
    (hstep : ∀ x b, P x → P (f x b)) :
    ∀ (l : List β) (a : α), P a → P (l.foldl f a) := by
  intro l
  induction l with
  | nil => intro a ha; exact ha
  | cons b rest ih => intro a ha; exact ih (f a b) (hstep a b ha)

theorem scoredMap_values (lex : Lexicon) (query : String) (rk : Option (List String))
    (ms : SRat) :
    ∀ v ∈ dictValues (scoredMap lex query rk ms),
      SRat.lt v.score ms = false ∨ v.score = ⟨1, 1⟩ := by
  unfold scoredMap
  refine foldl_preserves (fun (sc : Dict (String × String) MatchResult) =>
    ∀ v ∈ dictValues sc, SRat.lt v.score ms = false ∨ v.score = ⟨1, 1⟩)
    _ ?_ _ [] (by simp [dictValues])
  intro sc qf hsc
  refine foldl_preserves (fun (sc' : Dict (String × String) MatchResult) =>
    ∀ v ∈ dictValues sc', SRat.lt v.score ms = false ∨ v.score = ⟨1, 1⟩)
    _ ?_ _ sc hsc
  intro sc' e hsc'
  refine updateScored_values sc' _ _ hsc' ?_ ?_
  · intro r hr
    exact Or.inr (evalPair_exactRes _ _ _ _ _ _ _ _ _ hr).1
  · intro r hr
    exact Or.inl (evalPair_fuzzyRes _ _ _ _ _ _ _ _ _ hr)

theorem mem_insDesc (x a : MatchResult) (l : List MatchResult) :
    a ∈ insDesc x l ↔ a = x ∨ a ∈ l := by
  induction l with
  | nil => simp [insDesc]
  | cons y ys ih =>
    unfold insDesc
    split
    · constructor
      · intro h
        rcases List.mem_cons.mp h with h | h
        · exact Or.inl h
        · exact Or.inr h
      · intro h
        rcases h with h | h
        · exact h ▸ List.mem_cons_self _ _
        · exact List.mem_cons_of_mem _ h
    · constructor
      · intro h
        rcases List.mem_cons.mp h with h | h
        · exact Or.inr (h ▸ List.mem_cons_self _ _)
        · rcases ih.mp h with h | h
          · exact Or.inl h
          · exact Or.inr (List.mem_cons_of_mem _ h)
      · intro h
        rcases h with h | h
        · exact List.mem_cons_of_mem _ (ih.mpr (Or.inl h))
        · rcases List.mem_cons.mp h with h | h
          · exact h ▸ List.mem_cons_self _ _
          · exact List.mem_cons_of_mem _ (ih.mpr (Or.inr h))

theorem mem_sortByScoreDesc (a : MatchResult) (l : List MatchResult) :
    a ∈ sortByScoreDesc l ↔ a ∈ l := by
  induction l with
  | nil => simp [sortByScoreDesc]
  | cons x xs ih =>
    unfold sortByScoreDesc
    rw [mem_insDesc, ih]
    simp

theorem sortByScoreDesc_head_max (l : List MatchResult) (r : MatchResult)
    (hr : r ∈ l) (hmax : ∀ r' ∈ l, r' = r ∨ SRat.lt r'.score r.score = true) :
    (sortByScoreDesc l).head? = some r := by
  induction l with
  | nil => simp at hr
  | cons x xs ih =>
    by_cases hx : x = r
    · subst hx
      show (insDesc x (sortByScoreDesc xs)).head? = some x
      cases hs : sortByScoreDesc xs with
      | nil => rfl
      | cons y ys =>
        have hy : y = x ∨ SRat.lt y.score x.score = true := by
          refine hmax y (List.mem_cons_of_mem _ ?_)
          exact (mem_sortByScoreDesc y xs).mp (hs ▸ List.mem_cons_self _ _)
        have hle : SRat.le y.score x.score = true := by
          rcases hy with hy | hy
          · exact hy ▸ SRat.le_refl_true _
          · exact SRat.le_of_lt hy
        simp [insDesc, hle]
    · have hlt : SRat.lt x.score r.score = true :=
        (hmax x (List.mem_cons_self _ _)).resolve_left hx
      have hr' : r ∈ xs := by
        rcases List.mem_cons.mp hr with h | h
        · exact absurd h.symm hx
        · exact h
      have ihh := ih hr' (fun r' h' => hmax r' (List.mem_cons_of_mem _ h'))
      obtain ⟨ys, hys⟩ : ∃ ys, sortByScoreDesc xs = r :: ys := by
        cases hs : sortByScoreDesc xs with
        | nil => rw [hs] at ihh; simp at ihh
        | cons a as =>
          rw [hs] at ihh
          simp only [List.head?_cons, Option.some.injEq] at ihh
          exact ⟨as, by rw [ihh]⟩
      show (insDesc x (sortByScoreDesc xs)).head? = some r
      rw [hys]
      simp [insDesc, SRat.not_le_of_lt hlt]

theorem head?_take {α : Type} (l : List α) (n : Nat) (hn : 1 ≤ n) :
    (l.take n).head? = l.head? := by
  cases l with
  | nil => simp
  | cons x xs =>
    cases n with
    | zero => omega
    | succ m => simp [List.take_succ_cons]

/-- **C8.** (counterexample) The claim asserts the output never contains a
result below `min_score` and is empty whenever `top_k ≤ 0`.  Both fail: with
`min_score = 2` the exact branch still records score-1 matches (it bypasses
the threshold check), and with `top_k = -1` Python's `[:top_k]` slice drops
only the *last* element, so the output is the nonempty singleton below
`min_score`. -/
theorem match_threshold_topk_counterexample :
    matchConcepts
        ⟨Option.none, some [("u1", ⟨some "class", some "Cats", Option.none⟩),
                            ("u2", ⟨some "class", some "CATS", Option.none⟩)]⟩
        "cats" Option.none (-1) ⟨2, 1⟩
      = [⟨"u1", "class", "Cats", ⟨1, 1⟩, "exact_normalized", "Cats"⟩] ∧
    SRat.lt (⟨1, 1⟩ : SRat) ⟨2, 1⟩ = true :=
  ⟨rfl, by decide⟩

/-- **C8.** (amended) Every result of `match` has score ≥ `min_score` *or*
is an exact match of score 1 (the exact branch records its result before the
threshold check, so exact matches bypass `min_score`); the output has at most
`top_k` entries whenever `top_k ≥ 0`; and `top_k = 0` yields the empty list
(negative `top_k`, which Python slices as "drop the last `|top_k|`", is
excluded). -/
theorem match_results_threshold_topk :
    (∀ (lex : Lexicon) (query : String) (rk : Option (List String)) (tk : Int) (ms : SRat)
        (r : MatchResult), r ∈ matchConcepts lex query rk tk ms →
        SRat.le ms r.score = true ∨ r.score = ⟨1, 1⟩) ∧
    (∀ (lex : Lexicon) (query : String) (rk : Option (List String)) (tk : Int) (ms : SRat),
        0 ≤ tk → ((matchConcepts lex query rk tk ms).length : Int) ≤ tk) ∧
    (∀ (lex : Lexicon) (query : String) (rk : Option (List String)) (ms : SRat),
        matchConcepts lex query rk 0 ms = []) := by
  refine ⟨?_, ?_, ?_⟩
  · intro lex query rk tk ms r hr
    have h1 : r ∈ sortByScoreDesc (dictValues (scoredMap lex query rk ms)) := by
      unfold matchConcepts pySlice at hr
      split at hr
      · exact List.take_subset _ _ hr
      · exact List.take_subset _ _ hr
    have h2 : r ∈ dictValues (scoredMap lex query rk ms) := (mem_sortByScoreDesc _ _).mp h1
    rcases scoredMap_values lex query rk ms r h2 with h | h
    · exact Or.inl (SRat.le_of_not_lt h)
    · exact Or.inr h
  · intro lex query rk tk ms htk
    unfold matchConcepts pySlice
    rw [if_pos htk]
    have hlen := List.length_take tk.toNat
      (sortByScoreDesc (dictValues (scoredMap lex query rk ms)))
    rw [hlen]
    omega
  · intro lex query rk ms
    rfl

/-- **C8.** (witness for the amended theorem) -/
theorem match_results_threshold_topk_witness :
    (SRat.le ⟨55, 100⟩
        (MatchResult.mk "u1" "class" "Valve" ⟨1, 1⟩ "exact_normalized" "Valve").score = true ∨
      (MatchResult.mk "u1" "class" "Valve" ⟨1, 1⟩ "exact_normalized" "Valve").score = ⟨1, 1⟩) ∧
    ((matchConcepts ⟨Option.none, some [("u1", ⟨some "class", some "Valve", Option.none⟩)]⟩
        "valve" Option.none 5 ⟨55, 100⟩).length : Int) ≤ 5 ∧
    matchConcepts ⟨Option.none, some [("u1", ⟨some "class", some "Valve", Option.none⟩)]⟩
        "valve" Option.none 0 ⟨55, 100⟩ = [] :=
  ⟨match_results_threshold_topk.1
      ⟨Option.none, some [("u1", ⟨some "class", some "Valve", Option.none⟩)]⟩
      "valve" Option.none 5 ⟨55, 100⟩ _ (List.Mem.head _),
    match_results_threshold_topk.2.1
      ⟨Option.none, some [("u1", ⟨some "class", some "Valve", Option.none⟩)]⟩
      "valve" Option.none 5 ⟨55, 100⟩ (by decide),
    match_results_threshold_topk.2.2
      ⟨Option.none, some [("u1", ⟨some "class", some "Valve", Option.none⟩)]⟩
      "valve" Option.none ⟨55, 100⟩⟩

set_option maxRecDepth 8000 in
/-- **C7.** (counterexample) Two failures of the claim as stated: the exact
branch records reason `"exact_normalized"`, not `"exact"`; and a concept
whose label equals the query up to normalization need *not* rank first even
with `top_k ≥ 1` — querying `"cats"` against `uE` (label `"Cats"`, exact,
score 1) and `uF` (surface `"cat"`) ranks `uF` first, because fuzzy bonuses
push `uF`'s score to `731/700 > 1`. -/
theorem exact_match_reason_and_ranking_counterexample :
    matchConcepts ⟨Option.none, some [("u1", ⟨some "class", some "Valve", Option.none⟩)]⟩
        "valve" Option.none 5 ⟨55, 100⟩
      = [⟨"u1", "class", "Valve", ⟨1, 1⟩, "exact_normalized", "Valve"⟩] ∧
    "exact_normalized" ≠ "exact" ∧
    (matchConcepts
        ⟨Option.none, some [("uE", ⟨some "class", some "Cats", Option.none⟩),
                            ("uF", ⟨some "class", some "Felines", some ["cat"]⟩)]⟩
        "cats" Option.none 5 ⟨55, 100⟩).map (fun r => (r.uri, r.reason))
      = [("uF", "initialism_match"), ("uE", "exact_normalized")] ∧
    (matchConcepts
        ⟨Option.none, some [("uE", ⟨some "class", some "Cats", Option.none⟩),
                            ("uF", ⟨some "class", some "Felines", some ["cat"]⟩)]⟩
        "cats" Option.none 5 ⟨55, 100⟩).map (fun r => SRat.eqv r.score ⟨731, 700⟩)
      = [true, false] ∧
    SRat.lt (⟨1, 1⟩ : SRat) ⟨731, 700⟩ = true := by
  refine ⟨rfl, by decide, ?_, ?_, by decide⟩
  · rfl
  · rfl

/-- **C7.** (amended) When kind filtering passes and the query form's
normalized text equals the surface's normalized text *and is non-empty*, the
pair is recorded with score 1 and reason `"exact_normalized"` (not
`"exact"`); and a recorded candidate ranks first whenever it strictly
dominates every other recorded candidate and `top_k ≥ 1` (an exact match
need not dominate: fuzzy scores can exceed 1). -/
theorem exact_normalized_match_recorded_and_ranked :
    (∀ (query q_raw q_norm : String) (q_toks : List String) (q_init : String)
        (rk : Option (List String)) (ms : SRat) (e : CompiledEntry),
        (optListTruthy rk && !((rk.getD []).contains e.kind)) = false →
        q_norm = e.ns → q_norm ≠ "" →
        evalPair query q_raw q_norm q_toks q_init rk ms e
          = .exactRes ⟨e.uri, e.kind, e.label, ⟨1, 1⟩, "exact_normalized", e.surf⟩) ∧
    (∀ (lex : Lexicon) (query : String) (rk : Option (List String)) (tk : Int) (ms : SRat)
        (r : MatchResult),
        r ∈ dictValues (scoredMap lex query rk ms) →
        (∀ r' ∈ dictValues (scoredMap lex query rk ms),
          r' = r ∨ SRat.lt r'.score r.score = true) →
        1 ≤ tk →
        (matchConcepts lex query rk tk ms).head? = some r) := by
  constructor
  · intro query q_raw q_norm q_toks q_init rk ms e hflt heq hne
    subst heq
    unfold evalPair
    rw [hflt]
    simp [hne]
  · intro lex query rk tk ms r hmem hmax htk
    unfold matchConcepts pySlice
    rw [if_pos (by omega : (0 : Int) ≤ tk)]
    rw [head?_take _ tk.toNat (by omega : 1 ≤ tk.toNat)]
    exact sortByScoreDesc_head_max _ r hmem hmax

/-- **C7.** (witness for the amended theorem) -/
theorem exact_normalized_match_recorded_and_ranked_witness :
    evalPair "valve" "valve" "valve" (tokenize "valve") (initialism (tokenize "valve"))
        Option.none ⟨55, 100⟩
        ⟨"u1", "class", "Valve", "Valve", tokenize "Valve", normalize_text "Valve"⟩
      = .exactRes ⟨"u1", "class", "Valve", ⟨1, 1⟩, "exact_normalized", "Valve"⟩ ∧
    (matchConcepts ⟨Option.none, some [("u1", ⟨some "class", some "Valve", Option.none⟩)]⟩
        "valve" Option.none 5 ⟨55, 100⟩).head?
      = some ⟨"u1", "class", "Valve", ⟨1, 1⟩, "exact_normalized", "Valve"⟩ :=
  ⟨exact_normalized_match_recorded_and_ranked.1 "valve" "valve" "valve"
      (tokenize "valve") (initialism (tokenize "valve")) Option.none ⟨55, 100⟩
      ⟨"u1", "class", "Valve", "Valve", tokenize "Valve", normalize_text "Valve"⟩
      rfl rfl (by decide),
    exact_normalized_match_recorded_and_ranked.2
      ⟨Option.none, some [("u1", ⟨some "class", some "Valve", Option.none⟩)]⟩
      "valve" Option.none 5 ⟨55, 100⟩
      ⟨"u1", "class", "Valve", ⟨1, 1⟩, "exact_normalized", "Valve"⟩
      (List.Mem.head _) (by decide) (by decide)⟩

/-! ### Helper lemmas: dictionaries, sorting and the filter update (C6, C2, C3) -/

theorem dictGet_set_self {K V : Type} [DecidableEq K] (d : Dict K V) (k : K) (v : V) :
    dictGet (dictSet d k v) k = some v := by
  induction d with
  | nil => simp [dictSet, dictGet]
  | cons kv rest ih =>
    unfold dictSet
    by_cases hk : k = kv.1
    · rw [if_pos hk]
      simp [dictGet]
    · rw [if_neg hk]
      unfold dictGet
      rw [if_neg hk]
      exact ih

theorem dictGet_set_ne {K V : Type} [DecidableEq K] (d : Dict K V) (k i : K) (v : V)
    (h : i ≠ k) : dictGet (dictSet d k v) i = dictGet d i := by
  induction d with
  | nil => simp [dictSet, dictGet, h]
  | cons kv rest ih =>
    unfold dictSet
    by_cases hk : k = kv.1
    · rw [if_pos hk]
      unfold dictGet
      rw [if_neg (hk ▸ h), if_neg (hk ▸ h)]
    · rw [if_neg hk]
      unfold dictGet
      by_cases hi : i = kv.1
      · rw [if_pos hi, if_pos hi]
      · rw [if_neg hi, if_neg hi]
        exact ih

theorem mem_keys_dictSet {K V : Type} [DecidableEq K] (d : Dict K V) (k i : K) (v : V) :
    i ∈ dictKeys (dictSet d k v) ↔ i = k ∨ i ∈ dictKeys d := by
  induction d with
  | nil => simp [dictSet, dictKeys]
  | cons kv rest ih =>
    unfold dictSet
    by_cases hk : k = kv.1
    · rw [if_pos hk]
      simp [dictKeys, hk]
    · rw [if_neg hk]
      simp only [dictKeys, List.map_cons, List.mem_cons] at ih ⊢
      rw [ih]
      tauto

theorem mem_keys_iff_get {K V : Type} [DecidableEq K] (d : Dict K V) (k : K) :
    k ∈ dictKeys d ↔ (dictGet d k).isSome = true := by
  induction d with
  | nil => simp [dictKeys, dictGet]
  | cons kv rest ih =>
    unfold dictGet
    by_cases hk : k = kv.1
    · simp [dictKeys, hk]
    · rw [if_neg hk]
      simp only [dictKeys, List.map_cons, List.mem_cons]
      rw [← ih]
      simp [dictKeys, hk]

theorem mem_insSorted (x a : Int) (l : List Int) :
    a ∈ insSorted x l ↔ a = x ∨ a ∈ l := by
  induction l with
  | nil => simp [insSorted]
  | cons y ys ih =>
    unfold insSorted
    split
    · simp
    · simp only [List.mem_cons, ih]
      tauto

theorem mem_sortInts (a : Int) (l : List Int) : a ∈ sortInts l ↔ a ∈ l := by
  induction l with
  | nil => simp [sortInts]
  | cons x xs ih =>
    unfold sortInts
    rw [mem_insSorted, ih]
    simp

theorem mem_dedupFirstAux {α : Type} [DecidableEq α] (l : List α) :
    ∀ (seen : List α) (a : α), a ∈ dedupFirstAux l seen ↔ a ∈ l ∧ a ∉ seen := by
  induction l with
  | nil => simp [dedupFirstAux]
  | cons x xs ih =>
    intro seen a
    unfold dedupFirstAux
    by_cases hx : x ∈ seen
    · rw [if_pos hx, ih]
      constructor
      · intro ⟨h1, h2⟩
        exact ⟨List.mem_cons_of_mem _ h1, h2⟩
      · intro ⟨h1, h2⟩
        refine ⟨?_, h2⟩
        rcases List.mem_cons.mp h1 with h | h
        · exact absurd (h ▸ hx) h2
        · exact h
    · rw [if_neg hx]
      simp only [List.mem_cons, ih]
      constructor
      · intro h
        rcases h with h | ⟨h1, h2⟩
        · exact ⟨Or.inl h, h ▸ hx⟩
        · exact ⟨Or.inr h1, fun hs => h2 (Or.inr hs)⟩
      · intro ⟨h1, h2⟩
        rcases h1 with h | h
        · exact Or.inl h
        · by_cases hax : a = x
          · exact Or.inl hax
          · exact Or.inr ⟨h, fun hs => hs.elim hax h2⟩

theorem mem_dedupFirst {α : Type} [DecidableEq α] (l : List α) (a : α) :
    a ∈ dedupFirst l ↔ a ∈ l := by
  rw [dedupFirst, mem_dedupFirstAux]
  simp

/-- The filter-update loop applied to duplicate-free targets that all have a
registration: it succeeds, overwrites `predicate → value` in exactly the
targets' filter maps and leaves every other registration untouched. -/
theorem updateFilters_spec (p : String) (v : PyVal) :
    ∀ (targets : List Int) (dn : Dict Int DataNodeInfo),
    targets.Nodup →
    (∀ t ∈ targets, (dictGet dn t).isSome = true) →
    ∃ dn', updateFilters p v dn targets = .ok dn' ∧
      (∀ t ∈ targets, ∃ info, dictGet dn t = some info ∧
        dictGet dn' t = some ⟨info.node_id, dictSet info.filters p v⟩) ∧
      (∀ i, i ∉ targets → dictGet dn' i = dictGet dn i) := by
  intro targets
  induction targets with
  | nil =>
    intro dn _ _
    exact ⟨dn, rfl, by simp, fun i _ => rfl⟩
  | cons t rest ih =>
    intro dn hnd hsome
    obtain ⟨info, hinfo⟩ := Option.isSome_iff_exists.mp (hsome t (by simp))
    have hnd' := (List.nodup_cons.mp hnd).2
    have htrest : t ∉ rest := (List.nodup_cons.mp hnd).1
    have hsome' : ∀ x ∈ rest, (dictGet (dictSet dn t ⟨info.node_id, dictSet info.filters p v⟩) x).isSome = true := by
      intro x hx
      have hxt : x ≠ t := fun he => htrest (he ▸ hx)
      rw [dictGet_set_ne _ _ _ _ hxt]
      exact hsome x (by simp [hx])
    obtain ⟨dn', hrun, hupd, hother⟩ :=
      ih (dictSet dn t ⟨info.node_id, dictSet info.filters p v⟩) hnd' hsome'
    refine ⟨dn', ?_, ?_, ?_⟩
    · unfold updateFilters
      rw [hinfo]
      exact hrun
    · intro x hx
      rcases List.mem_cons.mp hx with hx | hx
      · subst hx
        refine ⟨info, hinfo, ?_⟩
        rw [hother x htrest, dictGet_set_self]
      · obtain ⟨info', h1, h2⟩ := hupd x hx
        have hxt : x ≠ t := fun he => htrest (he ▸ hx)
        rw [dictGet_set_ne _ _ _ _ hxt] at h1
        exact ⟨info', h1, h2⟩
    · intro i hi
      have h1 : i ∉ rest := fun h => hi (by simp [h])
      have h2 : i ≠ t := fun he => hi (by simp [he])
      rw [hother i h1, dictGet_set_ne _ _ _ _ h2]

/-- **C6.** `filter_data_nodes` target selection and filter update, as the
claim states it: an absent `_from` whose pointer is a data node, or an alias
resolving to a data node, selects exactly that node; an alias resolving to a
plain entity selects exactly the data nodes one edge away from it; the
operation fails when there are no data nodes, when the alias is unknown, or
when no targets resolve; and each selected target's filter map gains (or
overwrites) `predicate → value`, all other registrations and all other graph
components unchanged — so two applications with different predicates leave
both filters present on the same data node. -/
theorem filter_data_nodes_selection_and_update :
    (∀ (q : Query) (pid : Int),
        q.query_graph.data_nodes ≠ [] →
        q.query_graph.current_pointer = some pid →
        dictContains q.query_graph.data_nodes pid = true →
        q._select_data_node_ids Option.none = .ok [pid]) ∧
    (∀ (q : Query) (s : String) (rid : Int),
        q.query_graph.data_nodes ≠ [] →
        isAllSel (some s) = false →
        dictGet q.query_graph.aliases s = some rid →
        dictContains q.query_graph.data_nodes rid = true →
        q._select_data_node_ids (some s) = .ok [rid]) ∧
    (∀ (q : Query) (s : String) (rid : Int) (targets : List Int),
        q.query_graph.data_nodes ≠ [] →
        isAllSel (some s) = false →
        dictGet q.query_graph.aliases s = some rid →
        dictContains q.query_graph.data_nodes rid = false →
        q._select_data_node_ids (some s) = .ok targets →
        (∀ t ∈ targets, ∃ e ∈ q.query_graph.edges,
          e.source_id = rid ∧ e.target_id = t ∧
          dictContains q.query_graph.data_nodes t = true) ∧
        (∀ e ∈ q.query_graph.edges, e.source_id = rid →
          dictContains q.query_graph.data_nodes e.target_id = true →
          e.target_id ∈ targets)) ∧
    (∀ (q : Query) (p : String) (v : PyVal) (f : Option String),
        q.query_graph.data_nodes = [] →
        q.filter_data_nodes p v f
          = .error (.valueError "No data nodes exist in the query graph to filter")) ∧
    (∀ (q : Query) (p : String) (v : PyVal) (s : String),
        q.query_graph.data_nodes ≠ [] →
        isAllSel (some s) = false →
        dictGet q.query_graph.aliases s = Option.none →
        q.filter_data_nodes p v (some s)
          = .error (.valueError "filter: _from alias not found")) ∧
    (∀ (q : Query) (p : String) (v : PyVal) (f : Option String),
        q._select_data_node_ids f = .ok [] →
        q.filter_data_nodes p v f
          = .error (.valueError "filter_data_nodes: no target data nodes selected")) ∧
    (∀ (q : Query) (p : String) (v : PyVal) (f : Option String) (targets : List Int),
        q._select_data_node_ids f = .ok targets →
        targets ≠ [] → targets.Nodup →
        (∀ t ∈ targets, (dictGet q.query_graph.data_nodes t).isSome = true) →
        ∃ q', q.filter_data_nodes p v f = .ok q' ∧
          q'.query_graph.nodes = q.query_graph.nodes ∧
          q'.query_graph.edges = q.query_graph.edges ∧
          q'.query_graph.aliases = q.query_graph.aliases ∧
          q'.query_graph.current_pointer = q.query_graph.current_pointer ∧
          (∀ t ∈ targets, ∃ info, dictGet q.query_graph.data_nodes t = some info ∧
            dictGet q'.query_graph.data_nodes t
              = some ⟨info.node_id, dictSet info.filters p v⟩) ∧
          (∀ i, i ∉ targets →
            dictGet q'.query_graph.data_nodes i = dictGet q.query_graph.data_nodes i)) ∧
    (∀ (q : Query) (s : String) (rid : Int) (p1 p2 : String) (v1 v2 : PyVal),
        q.query_graph.data_nodes ≠ [] →
        isAllSel (some s) = false →
        dictGet q.query_graph.aliases s = some rid →
        dictContains q.query_graph.data_nodes rid = true →
        p1 ≠ p2 →
        ∃ q1 q2, q.filter_data_nodes p1 v1 (some s) = .ok q1 ∧
          q1.filter_data_nodes p2 v2 (some s) = .ok q2 ∧
          ∃ info2, dictGet q2.query_graph.data_nodes rid = some info2 ∧
            dictGet info2.filters p1 = some v1 ∧ dictGet info2.filters p2 = some v2) := by
  have hptr : ∀ (q : Query) (pid : Int),
      q.query_graph.data_nodes ≠ [] → q.query_graph.current_pointer = some pid →
      dictContains q.query_graph.data_nodes pid = true →
      q._select_data_node_ids Option.none = .ok [pid] := by
    intro q pid hne hp hc
    unfold Query._select_data_node_ids
    rw [if_neg hne]
    have : isAllSel Option.none = false := rfl
    rw [this]
    simp only [Bool.false_eq_true, if_false]
    rw [hp]
    simp [hc]
  have hsel : ∀ (q : Query) (s : String) (rid : Int),
      q.query_graph.data_nodes ≠ [] → isAllSel (some s) = false →
      dictGet q.query_graph.aliases s = some rid →
      dictContains q.query_graph.data_nodes rid = true →
      q._select_data_node_ids (some s) = .ok [rid] := by
    intro q s rid hne hall hget hc
    unfold Query._select_data_node_ids
    rw [if_neg hne, hall]
    simp only [Bool.false_eq_true, if_false]
    rw [hget]
    simp [hc]
  have hupd : ∀ (q : Query) (p : String) (v : PyVal) (f : Option String) (targets : List Int),
      q._select_data_node_ids f = .ok targets →
      targets ≠ [] → targets.Nodup →
      (∀ t ∈ targets, (dictGet q.query_graph.data_nodes t).isSome = true) →
      ∃ q', q.filter_data_nodes p v f = .ok q' ∧
        q'.query_graph.nodes = q.query_graph.nodes ∧
        q'.query_graph.edges = q.query_graph.edges ∧
        q'.query_graph.aliases = q.query_graph.aliases ∧
        q'.query_graph.current_pointer = q.query_graph.current_pointer ∧
        (∀ t ∈ targets, ∃ info, dictGet q.query_graph.data_nodes t = some info ∧
          dictGet q'.query_graph.data_nodes t
            = some ⟨info.node_id, dictSet info.filters p v⟩) ∧
        (∀ i, i ∉ targets →
          dictGet q'.query_graph.data_nodes i = dictGet q.query_graph.data_nodes i) := by
    intro q p v f targets hselq hneT hnd hsome
    obtain ⟨dn', hrun, hu, ho⟩ := updateFilters_spec p v targets q.query_graph.data_nodes hnd hsome
    refine ⟨q._clone_with_graph { q.query_graph with data_nodes := dn' } false, ?_,
      rfl, rfl, rfl, rfl, hu, ho⟩
    unfold Query.filter_data_nodes
    rw [hselq]
    simp only [if_neg hneT]
    rw [hrun]
  refine ⟨hptr, hsel, ?_, ?_, ?_, ?_, hupd, ?_⟩
  · -- (c) entity target: exactly the 1-edge-attached data nodes
    intro q s rid targets hne hall hget hc hsel'
    unfold Query._select_data_node_ids at hsel'
    rw [if_neg hne, hall] at hsel'
    simp only [Bool.false_eq_true, if_false] at hsel'
    rw [hget] at hsel'
    simp only [hc, Bool.false_eq_true, if_false] at hsel'
    set attached := (q.query_graph.edges.filter
      (fun e => e.source_id = rid && dictContains q.query_graph.data_nodes e.target_id)).map
      (fun e => e.target_id) with hatt
    by_cases haemp : attached = []
    · rw [if_pos haemp] at hsel'
      have ht : targets = [] := by
        cases hsel'
        rfl
      subst ht
      constructor
      · intro t ht
        simp at ht
      · intro e he hsrc hcont
        exfalso
        have : e.target_id ∈ attached := by
          rw [hatt]
          exact List.mem_map.mpr ⟨e, List.mem_filter.mpr ⟨he, by simp [hsrc, hcont]⟩, rfl⟩
        rw [haemp] at this
        simp at this
    · rw [if_neg haemp] at hsel'
      have ht : targets = sortInts (dedupFirst attached) := by
        cases hsel'
        rfl
      subst ht
      constructor
      · intro t ht
        have : t ∈ attached := (mem_dedupFirst _ _).mp ((mem_sortInts _ _).mp ht)
        rw [hatt] at this
        obtain ⟨e, hef, het⟩ := List.mem_map.mp this
        have hef' := List.mem_filter.mp hef
        have hcond := hef'.2
        simp only [Bool.and_eq_true, decide_eq_true_eq] at hcond
        exact ⟨e, hef'.1, hcond.1, het, het ▸ hcond.2⟩
      · intro e he hsrc hcont
        rw [mem_sortInts, mem_dedupFirst, hatt]
        exact List.mem_map.mpr ⟨e, List.mem_filter.mpr ⟨he, by simp [hsrc, hcont]⟩, rfl⟩
  · -- (d1) no data nodes at all
    intro q p v f hemp
    unfold Query.filter_data_nodes Query._select_data_node_ids
    rw [if_pos hemp]
  · -- (d2) unknown alias
    intro q p v s hne hall hget
    unfold Query.filter_data_nodes Query._select_data_node_ids
    rw [if_neg hne, hall]
    simp only [Bool.false_eq_true, if_false]
    rw [hget]
  · -- (d3) zero selected targets
    intro q p v f hsel'
    unfold Query.filter_data_nodes
    rw [hsel']
    simp
  · -- (f) accumulation of two filters with distinct predicates
    intro q s rid p1 p2 v1 v2 hne hall hget hc hp12
    obtain ⟨info, hinfo⟩ := Option.isSome_iff_exists.mp hc
    obtain ⟨q1, hq1run, hq1n, hq1e, hq1a, hq1p, hq1u, hq1o⟩ :=
      hupd q p1 v1 (some s) [rid] (hsel q s rid hne hall hget hc) (by simp)
        (by simp) (fun t ht => by
          simp only [List.mem_singleton] at ht
          subst ht
          simp [hinfo])
    obtain ⟨info1, hinfo1, hinfo1'⟩ := hq1u rid (by simp)
    have hne1 : q1.query_graph.data_nodes ≠ [] := by
      intro he
      rw [he] at hinfo1'
      simp [dictGet] at hinfo1'
    have hget1 : dictGet q1.query_graph.aliases s = some rid := by
      rw [hq1a]
      exact hget
    have hc1 : dictContains q1.query_graph.data_nodes rid = true := by
      unfold dictContains
      rw [hinfo1']
      rfl
    obtain ⟨q2, hq2run, hq2n, hq2e, hq2a, hq2p, hq2u, hq2o⟩ :=
      hupd q1 p2 v2 (some s) [rid] (hsel q1 s rid hne1 hall hget1 hc1) (by simp)
        (by simp) (fun t ht => by
          simp only [List.mem_singleton] at ht
          subst ht
          rw [hinfo1']
          rfl)
    obtain ⟨info2, hinfo2, hinfo2'⟩ := hq2u rid (by simp)
    rw [hinfo1'] at hinfo2
    cases hinfo2
    refine ⟨q1, q2, hq1run, hq2run, _, hinfo2', ?_, ?_⟩
    · rw [hinfo1] at hinfo
      cases hinfo
      rw [dictGet_set_ne _ _ _ _ hp12, dictGet_set_self]
    · rw [dictGet_set_self]

/-- **C6.** (witness) The selection and the two-filter accumulation applied
to a concrete one-data-node query (alias `valve_data`), with the two
predicates `hasUnit` and `hasMedium`. -/
theorem filter_data_nodes_selection_and_update_witness :
    (Query.mk
        ⟨[(0, ⟨0, Option.none, some "valve_data",
            [("is_data_node", PyVal.bool true), ("path_from", PyVal.none)]⟩)], [],
          [("valve_data", 0)], [(0, "valve_data")], some 0, [(0, ⟨0, []⟩)]⟩ 1
        [])._select_data_node_ids (some "valve_data") = .ok [0] ∧
    (∃ q1 q2, (Query.mk
        ⟨[(0, ⟨0, Option.none, some "valve_data",
            [("is_data_node", PyVal.bool true), ("path_from", PyVal.none)]⟩)], [],
          [("valve_data", 0)], [(0, "valve_data")], some 0, [(0, ⟨0, []⟩)]⟩ 1
        []).filter_data_nodes "hasUnit" (PyVal.str "DEG_C") (some "valve_data") = .ok q1 ∧
      q1.filter_data_nodes "hasMedium" (PyVal.str "Water") (some "valve_data") = .ok q2 ∧
      ∃ info2, dictGet q2.query_graph.data_nodes 0 = some info2 ∧
        dictGet info2.filters "hasUnit" = some (PyVal.str "DEG_C") ∧
        dictGet info2.filters "hasMedium" = some (PyVal.str "Water")) :=
  ⟨filter_data_nodes_selection_and_update.2.1
      (Query.mk
        ⟨[(0, ⟨0, Option.none, some "valve_data",
            [("is_data_node", PyVal.bool true), ("path_from", PyVal.none)]⟩)], [],
          [("valve_data", 0)], [(0, "valve_data")], some 0, [(0, ⟨0, []⟩)]⟩ 1 [])
      "valve_data" 0 (by simp) rfl rfl rfl,
    filter_data_nodes_selection_and_update.2.2.2.2.2.2.2
      (Query.mk
        ⟨[(0, ⟨0, Option.none, some "valve_data",
            [("is_data_node", PyVal.bool true), ("path_from", PyVal.none)]⟩)], [],
          [("valve_data", 0)], [(0, "valve_data")], some 0, [(0, ⟨0, []⟩)]⟩ 1 [])
      "valve_data" 0 "hasUnit" "hasMedium" (PyVal.str "DEG_C") (PyVal.str "Water")
      (by simp) rfl rfl rfl (by decide)⟩

theorem dictGet_eq_none_of_not_mem {K V : Type} [DecidableEq K] (d : Dict K V) (k : K)
    (h : k ∉ dictKeys d) : dictGet d k = Option.none := by
  cases hg : dictGet d k with
  | none => rfl
  | some v =>
    exact absurd ((mem_keys_iff_get d k).mpr (by simp [hg])) h

theorem init_le_foldl_max (l : List Int) : ∀ (a : Int), a ≤ l.foldl max a := by
  induction l with
  | nil => intro a; simp
  | cons x xs ih =>
    intro a
    simp only [List.foldl_cons]
    calc a ≤ max a x := le_max_left _ _
      _ ≤ xs.foldl max (max a x) := ih _

theorem le_listMaxD (xs : List Int) : ∀ (d k : Int), k ∈ xs → k ≤ listMaxD xs d := by
  induction xs with
  | nil => intro d k hk; simp at hk
  | cons x rest ih =>
    intro d k hk
    show k ≤ rest.foldl max (max d x)
    rcases List.mem_cons.mp hk with h | h
    · subst h
      calc k ≤ max d k := le_max_right _ _
        _ ≤ rest.foldl max (max d k) := init_le_foldl_max _ _
    · exact ih (max d x) k h

theorem foldl_mapping_get (M : Int) (l : List (Int × QueryNode)) :
    ∀ (m0 : Dict Int Int) (k : Int),
    dictGet (l.foldl (fun m kv => dictSet m kv.1 (M + 1 + kv.1)) m0) k
      = if k ∈ dictKeys l then some (M + 1 + k) else dictGet m0 k := by
  induction l with
  | nil => intro m0 k; simp [dictKeys]
  | cons kv rest ih =>
    intro m0 k
    simp only [List.foldl_cons]
    rw [ih]
    by_cases hk : k ∈ dictKeys rest
    · rw [if_pos hk, if_pos (by simp [dictKeys] at hk ⊢; exact Or.inr hk)]
    · rw [if_neg hk]
      by_cases hke : k = kv.1
      · subst hke
        rw [dictGet_set_self, if_pos (by simp [dictKeys])]
      · rw [dictGet_set_ne _ _ _ _ hke,
          if_neg (by simp [dictKeys] at hk ⊢; exact ⟨hke, hk⟩)]

theorem foldl_nodes_get_old (M : Int) (l : List (Int × QueryNode)) :
    ∀ (acc : Dict Int QueryNode) (k : Int),
    (∀ kv ∈ l, M + 1 + kv.1 ≠ k) →
    dictGet (l.foldl (fun a kv => dictSet a (M + 1 + kv.1) kv.2) acc) k = dictGet acc k := by
  induction l with
  | nil => intro acc k _; rfl
  | cons kv rest ih =>
    intro acc k hne
    simp only [List.foldl_cons]
    rw [ih _ _ (fun kv' h' => hne kv' (by simp [h'])),
      dictGet_set_ne _ _ _ _ (fun he => hne kv (by simp) he.symm)]

theorem foldl_nodes_get_shifted (M : Int) (l : List (Int × QueryNode)) :
    ∀ (acc : Dict Int QueryNode) (k : Int), (dictKeys l).Nodup →
    dictGet (l.foldl (fun a kv => dictSet a (M + 1 + kv.1) kv.2) acc) (M + 1 + k)
      = match dictGet l k with
        | some v => some v
        | Option.none => dictGet acc (M + 1 + k) := by
  induction l with
  | nil => intro acc k _; rfl
  | cons kv rest ih =>
    intro acc k hnd
    obtain ⟨k1, v1⟩ := kv
    have h0 : dictKeys ((k1, v1) :: rest) = k1 :: dictKeys rest := rfl
    rw [h0] at hnd
    have hnd' : (dictKeys rest).Nodup := (List.nodup_cons.mp hnd).2
    have hkv : k1 ∉ dictKeys rest := (List.nodup_cons.mp hnd).1
    simp only [List.foldl_cons]
    rw [ih _ _ hnd']
    by_cases hke : k = k1
    · subst hke
      rw [dictGet_eq_none_of_not_mem rest k hkv]
      have hc : dictGet ((k, v1) :: rest) k = some v1 := by
        show (if k = k then some v1 else dictGet rest k) = some v1
        rw [if_pos rfl]
      rw [hc]
      show dictGet (dictSet acc (M + 1 + k) v1) (M + 1 + k) = some v1
      exact dictGet_set_self _ _ _
    · have h1 : dictGet ((k1, v1) :: rest) k = dictGet rest k := by
        show (if k = k1 then some v1 else dictGet rest k) = dictGet rest k
        rw [if_neg hke]
      rw [h1]
      cases dictGet rest k with
      | some v => rfl
      | none =>
        show dictGet (dictSet acc (M + 1 + k1) v1) (M + 1 + k) = dictGet acc (M + 1 + k)
        exact dictGet_set_ne _ _ _ _ (fun he => hke (by omega))

theorem shiftEdges_ok (mapping : Dict Int Int) (M : Int) :
    ∀ (edges : List QueryEdge),
    (∀ e ∈ edges, dictGet mapping e.source_id = some (M + 1 + e.source_id) ∧
      dictGet mapping e.target_id = some (M + 1 + e.target_id)) →
    shiftEdges mapping edges
      = .ok (edges.map (fun e =>
          ⟨M + 1 + e.source_id, M + 1 + e.target_id, e.hops, e.predicates⟩)) := by
  intro edges
  induction edges with
  | nil => intro _; rfl
  | cons e rest ih =>
    intro h
    have he := h e (by simp)
    unfold shiftEdges
    rw [he.1, he.2, ih (fun e' h' => h e' (by simp [h']))]
    rfl

theorem mergeAliases_ok (mapping : Dict Int Int) (M : Int) :
    ∀ (items : List (String × Int)) (acc : Dict String Int) (accRev : Dict Int String),
    (∀ kv ∈ items, dictGet mapping kv.2 = some (M + 1 + kv.2)) →
    ∃ rev, mergeAliases mapping items acc accRev
      = .ok (items.foldl (fun a kv => dictSet a kv.1 (M + 1 + kv.2)) acc, rev) := by
  intro items
  induction items with
  | nil => intro acc accRev _; exact ⟨accRev, rfl⟩
  | cons kv rest ih =>
    intro acc accRev h
    obtain ⟨rev, hrev⟩ := ih (dictSet acc kv.1 (M + 1 + kv.2))
      (invertDict (dictSet acc kv.1 (M + 1 + kv.2))) (fun kv' h' => h kv' (by simp [h']))
    refine ⟨rev, ?_⟩
    show mergeAliases mapping ((kv.1, kv.2) :: rest) acc accRev = _
    unfold mergeAliases
    rw [h kv (by simp)]
    exact hrev

theorem foldl_aliasSet_get (M : Int) :
    ∀ (items : List (String × Int)) (acc : Dict String Int) (n : String),
    (dictKeys items).Nodup →
    dictGet (items.foldl (fun a kv => dictSet a kv.1 (M + 1 + kv.2)) acc) n
      = match dictGet items n with
        | some i => some (M + 1 + i)
        | Option.none => dictGet acc n := by
  intro items
  induction items with
  | nil => intro acc n _; rfl
  | cons kv rest ih =>
    intro acc n hnd
    obtain ⟨n1, i1⟩ := kv
    have h0 : dictKeys ((n1, i1) :: rest) = n1 :: dictKeys rest := rfl
    rw [h0] at hnd
    have hnd' : (dictKeys rest).Nodup := (List.nodup_cons.mp hnd).2
    have hkv : n1 ∉ dictKeys rest := (List.nodup_cons.mp hnd).1
    simp only [List.foldl_cons]
    rw [ih _ _ hnd']
    by_cases hne : n = n1
    · subst hne
      rw [dictGet_eq_none_of_not_mem rest n hkv]
      have hc : dictGet ((n, i1) :: rest) n = some i1 := by
        show (if n = n then some i1 else dictGet rest n) = some i1
        rw [if_pos rfl]
      rw [hc]
      show dictGet (dictSet acc n (M + 1 + i1)) n = some (M + 1 + i1)
      exact dictGet_set_self _ _ _
    · have h1 : dictGet ((n1, i1) :: rest) n = dictGet rest n := by
        show (if n = n1 then some i1 else dictGet rest n) = dictGet rest n
        rw [if_neg hne]
      rw [h1]
      cases dictGet rest n with
      | some i => rfl
      | none =>
        show dictGet (dictSet acc n1 (M + 1 + i1)) n = dictGet acc n
        exact dictGet_set_ne _ _ _ _ hne

/-- **C2.** (amended) `relate_to` merges `other`'s nodes, edges and aliases
into the receiver — `other`'s node ids remapped to
`(max existing id) + 1 + original id`, edges and aliases remapped
accordingly, `other`'s alias winning name collisions, with no id collisions
for non-negative ids and both original sub-patterns preserved — and adds one
new edge from the resolved source to the remapped target, which becomes the
new pointer; however the merged graph's `data_nodes` table is *empty*: the
data-node registrations of both operands are discarded (the
`QueryGraph(...)` call at query.py lines 259–265 omits `data_nodes`). -/
theorem relate_to_merges_disjointly (q1 q2 : Query) (_from _to : Option String)
    (hops : Int) (preds : Option (List String)) (src tgt : Int)
    (hsrc : (match _from with
      | Option.none => q1.query_graph.current_pointer
      | some a => q1.query_graph.resolve_alias (some a)) = some src)
    (htgt : (match _to with
      | Option.none => q2.query_graph.current_pointer
      | some a => q2.query_graph.resolve_alias (some a)) = some tgt)
    (hkeys : ∀ k ∈ dictKeys q2.query_graph.nodes, 0 ≤ k)
    (hnd : (dictKeys q2.query_graph.nodes).Nodup)
    (hnda : (dictKeys q2.query_graph.aliases).Nodup)
    (hedges : ∀ e ∈ q2.query_graph.edges,
      e.source_id ∈ dictKeys q2.query_graph.nodes ∧
      e.target_id ∈ dictKeys q2.query_graph.nodes)
    (hals : ∀ kv ∈ q2.query_graph.aliases, kv.2 ∈ dictKeys q2.query_graph.nodes)
    (htgtk : tgt ∈ dictKeys q2.query_graph.nodes) :
    ∃ q3, q1.relate_to q2 _from _to hops preds = .ok q3 ∧
      (∀ k ∈ dictKeys q1.query_graph.nodes,
        dictGet q3.query_graph.nodes k = dictGet q1.query_graph.nodes k) ∧
      (∀ k v, dictGet q2.query_graph.nodes k = some v →
        dictGet q3.query_graph.nodes
          (listMaxD (dictKeys q1.query_graph.nodes) (-1) + 1 + k) = some v) ∧
      (∀ k ∈ dictKeys q1.query_graph.nodes, ∀ k' ∈ dictKeys q2.query_graph.nodes,
        k ≠ listMaxD (dictKeys q1.query_graph.nodes) (-1) + 1 + k') ∧
      q3.query_graph.edges = (q1.query_graph.edges ++
        q2.query_graph.edges.map (fun e =>
          ⟨listMaxD (dictKeys q1.query_graph.nodes) (-1) + 1 + e.source_id,
           listMaxD (dictKeys q1.query_graph.nodes) (-1) + 1 + e.target_id,
           e.hops, e.predicates⟩)) ++
        [⟨src, listMaxD (dictKeys q1.query_graph.nodes) (-1) + 1 + tgt, hops, preds⟩] ∧
      (∀ name i, dictGet q2.query_graph.aliases name = some i →
        dictGet q3.query_graph.aliases name
          = some (listMaxD (dictKeys q1.query_graph.nodes) (-1) + 1 + i)) ∧
      (∀ name, dictGet q2.query_graph.aliases name = Option.none →
        dictGet q3.query_graph.aliases name = dictGet q1.query_graph.aliases name) ∧
      q3.query_graph.data_nodes = [] ∧
      q3.query_graph.current_pointer
        = some (listMaxD (dictKeys q1.query_graph.nodes) (-1) + 1 + tgt) ∧
      q3._next_id = max q1._next_id q2._next_id := by
  simp only [Query.relate_to, hsrc, htgt]
  set M := listMaxD (dictKeys q1.query_graph.nodes) (-1) with hM
  set mapping := q2.query_graph.nodes.foldl
    (fun m kv => dictSet m kv.1 (M + 1 + kv.1)) ([] : Dict Int Int) with hmap
  have hmget : ∀ k, k ∈ dictKeys q2.query_graph.nodes →
      dictGet mapping k = some (M + 1 + k) := by
    intro k hk
    rw [hmap, foldl_mapping_get, if_pos hk]
  have hse := shiftEdges_ok mapping M q2.query_graph.edges
    (fun e he => ⟨hmget _ (hedges e he).1, hmget _ (hedges e he).2⟩)
  obtain ⟨rev, hma⟩ := mergeAliases_ok mapping M q2.query_graph.aliases
    q1.query_graph.aliases q1.query_graph.aliases_reverse
    (fun kv hkv => hmget _ (hals kv hkv))
  have htg := hmget tgt htgtk
  rw [hse, hma, htg]
  refine ⟨_, rfl, ?_, ?_, ?_, rfl, ?_, ?_, rfl, rfl, rfl⟩
  · intro k hk
    show dictGet (q2.query_graph.nodes.foldl
      (fun acc kv => dictSet acc (M + 1 + kv.1) kv.2) q1.query_graph.nodes) k
      = dictGet q1.query_graph.nodes k
    refine foldl_nodes_get_old M _ _ _ ?_
    intro kv hkv
    have h1 : k ≤ M := le_listMaxD _ _ _ hk
    have h2 : 0 ≤ kv.1 := hkeys kv.1 (List.mem_map.mpr ⟨kv, hkv, rfl⟩)
    omega
  · intro k v hv
    show dictGet (q2.query_graph.nodes.foldl
      (fun acc kv => dictSet acc (M + 1 + kv.1) kv.2) q1.query_graph.nodes) (M + 1 + k)
      = some v
    rw [foldl_nodes_get_shifted M _ _ _ hnd, hv]
  · intro k hk k' hk'
    have h1 : k ≤ M := le_listMaxD _ _ _ hk
    have h2 : 0 ≤ k' := hkeys k' hk'
    omega
  · intro name i hni
    show dictGet (q2.query_graph.aliases.foldl
      (fun a kv => dictSet a kv.1 (M + 1 + kv.2)) q1.query_graph.aliases) name
      = some (M + 1 + i)
    rw [foldl_aliasSet_get M _ _ _ hnda, hni]
  · intro name hni
    show dictGet (q2.query_graph.aliases.foldl
      (fun a kv => dictSet a kv.1 (M + 1 + kv.2)) q1.query_graph.aliases) name
      = dictGet q1.query_graph.aliases name
    rw [foldl_aliasSet_get M _ _ _ hnda, hni]

/-- **C2.** (counterexample) The claim says the merged graph contains every
data-node registration of both operands; it does not: merging a query whose
graph has a registered data node (built by `find_all_data` on the empty
graph) with an entity query yields a merged graph whose `data_nodes` table
is empty, even though the data node itself (with its `is_data_node`
constraint) is present. -/
theorem relate_to_drops_data_node_registrations :
    ∃ qd q3, Query.empty.find_all_data Option.none 3 Option.none (some "d") = .ok qd ∧
      dictGet qd.query_graph.data_nodes 0 = some ⟨0, []⟩ ∧
      qd.relate_to (Query.empty.find_entity "C" Option.none)
        Option.none Option.none 3 Option.none = .ok q3 ∧
      dictGet q3.query_graph.nodes 0 = some ⟨0, Option.none, some "d",
        [("is_data_node", PyVal.bool true), ("path_from", PyVal.none)]⟩ ∧
      q3.query_graph.data_nodes = [] :=
  ⟨_, _, rfl, rfl, rfl, rfl, rfl⟩

/-- **C2.** (witness for the amended theorem) -/
theorem relate_to_merges_disjointly_witness :
    ∃ q3, (Query.mk
        ⟨[(0, ⟨0, Option.none, some "d",
            [("is_data_node", PyVal.bool true), ("path_from", PyVal.none)]⟩)], [],
          [("d", 0)], [(0, "d")], some 0, [(0, ⟨0, []⟩)]⟩ 1 []).relate_to
        (Query.mk ⟨[(0, ⟨0, some "C", Option.none, []⟩)], [],
          [("0", 0)], [(0, "0")], some 0, []⟩ 1 [])
        Option.none Option.none 3 Option.none = .ok q3 ∧
      q3.query_graph.data_nodes = [] ∧
      q3.query_graph.current_pointer = some 1 := by
  obtain ⟨q3, hrun, _, _, _, _, _, _, hdn, hptr, _⟩ :=
    relate_to_merges_disjointly
      (Query.mk
        ⟨[(0, ⟨0, Option.none, some "d",
            [("is_data_node", PyVal.bool true), ("path_from", PyVal.none)]⟩)], [],
          [("d", 0)], [(0, "d")], some 0, [(0, ⟨0, []⟩)]⟩ 1 [])
      (Query.mk ⟨[(0, ⟨0, some "C", Option.none, []⟩)], [],
        [("0", 0)], [(0, "0")], some 0, []⟩ 1 [])
      Option.none Option.none 3 Option.none 0 0 rfl rfl
      (by decide) (by decide) (by decide) (by simp) (by decide) (by decide)
  exact ⟨q3, hrun, hdn, hptr.trans (by decide)⟩

/-! ### Helper lemmas: the reachable-state invariant (C3) -/

theorem mem_pair_dictSet {K V : Type} [DecidableEq K] (d : Dict K V) (k : K) (v : V)
    (kv : K × V) (h : kv ∈ dictSet d k v) : kv = (k, v) ∨ kv ∈ d := by
  induction d with
  | nil => simpa [dictSet] using h
  | cons kv' rest ih =>
    unfold dictSet at h
    by_cases hk : k = kv'.1
    · rw [if_pos hk] at h
      rcases List.mem_cons.mp h with h | h
      · exact Or.inl h
      · exact Or.inr (List.mem_cons_of_mem _ h)
    · rw [if_neg hk] at h
      rcases List.mem_cons.mp h with h | h
      · exact Or.inr (h ▸ List.mem_cons_self _ _)
      · rcases ih h with h | h
        · exact Or.inl h
        · exact Or.inr (List.mem_cons_of_mem _ h)

theorem dictGet_some_pair_mem {K V : Type} [DecidableEq K] (d : Dict K V) (k : K) (v : V)
    (h : dictGet d k = some v) : (k, v) ∈ d := by
  induction d with
  | nil => simp [dictGet] at h
  | cons kv rest ih =>
    unfold dictGet at h
    by_cases hk : k = kv.1
    · rw [if_pos hk] at h
      cases h
      have he : (k, kv.2) = kv := by rw [hk]
      exact he ▸ List.mem_cons_self _ _
    · rw [if_neg hk] at h
      exact List.mem_cons_of_mem _ (ih h)

theorem mem_keys_foldl_nodes (M : Int) (l : List (Int × QueryNode)) :
    ∀ (acc : Dict Int QueryNode) (k0 : Int),
    k0 ∈ dictKeys (l.foldl (fun a kv => dictSet a (M + 1 + kv.1) kv.2) acc) ↔
      (∃ kv ∈ l, k0 = M + 1 + kv.1) ∨ k0 ∈ dictKeys acc := by
  induction l with
  | nil => intro acc k0; simp
  | cons kv rest ih =>
    intro acc k0
    simp only [List.foldl_cons]
    rw [ih]
    constructor
    · intro h
      rcases h with ⟨kv', h1, h2⟩ | h
      · exact Or.inl ⟨kv', List.mem_cons_of_mem _ h1, h2⟩
      · rcases (mem_keys_dictSet _ _ _ _).mp h with h | h
        · exact Or.inl ⟨kv, List.mem_cons_self _ _, h⟩
        · exact Or.inr h
    · intro h
      rcases h with ⟨kv', h1, h2⟩ | h
      · rcases List.mem_cons.mp h1 with h1 | h1
        · exact Or.inr ((mem_keys_dictSet _ _ _ _).mpr (Or.inl (h1 ▸ h2)))
        · exact Or.inl ⟨kv', h1, h2⟩
      · exact Or.inr ((mem_keys_dictSet _ _ _ _).mpr (Or.inr h))

theorem shiftEdges_ok_inv (mapping : Dict Int Int) :
    ∀ (edges es : List QueryEdge), shiftEdges mapping edges = .ok es →
    ∀ e' ∈ es, ∃ e ∈ edges, dictGet mapping e.source_id = some e'.source_id ∧
      dictGet mapping e.target_id = some e'.target_id := by
  intro edges
  induction edges with
  | nil =>
    intro es h e' he'
    cases h
    simp at he'
  | cons e rest ih =>
    intro es h e' he'
    unfold shiftEdges at h
    cases hs : dictGet mapping e.source_id with
    | none => rw [hs] at h; cases h
    | some s' =>
      cases ht : dictGet mapping e.target_id with
      | none => rw [hs, ht] at h; cases h
      | some t' =>
        rw [hs, ht] at h
        cases hr : shiftEdges mapping rest with
        | error err => rw [hr] at h; cases h
        | ok es' =>
          rw [hr] at h
          cases h
          rcases List.mem_cons.mp he' with he' | he'
          · subst he'
            exact ⟨e, List.mem_cons_self _ _, hs, ht⟩
          · obtain ⟨e0, h1, h2, h3⟩ := ih es' hr e' he'
            exact ⟨e0, List.mem_cons_of_mem _ h1, h2, h3⟩

theorem mergeAliases_ok_inv (mapping : Dict Int Int) (Q : Int → Prop)
    (hQ : ∀ i j, dictGet mapping i = some j → Q j) :
    ∀ (items : List (String × Int)) (acc : Dict String Int) (accRev : Dict Int String)
      (a : Dict String Int) (r : Dict Int String),
    (∀ kv ∈ acc, Q kv.2) →
    mergeAliases mapping items acc accRev = .ok (a, r) →
    ∀ kv ∈ a, Q kv.2 := by
  intro items
  induction items with
  | nil =>
    intro acc accRev a r hacc h
    cases h
    exact hacc
  | cons kv rest ih =>
    intro acc accRev a r hacc h
    unfold mergeAliases at h
    cases hm : dictGet mapping kv.2 with
    | none => rw [hm] at h; cases h
    | some nid' =>
      rw [hm] at h
      refine ih (dictSet acc kv.1 nid') (invertDict (dictSet acc kv.1 nid')) a r ?_ h
      intro kv' hkv'
      rcases mem_pair_dictSet _ _ _ _ hkv' with h' | h'
      · rw [h']
        exact hQ _ _ hm
      · exact hacc kv' h'

theorem updateFilters_mem_inv (p : String) (v : PyVal) :
    ∀ (targets : List Int) (dn dn' : Dict Int DataNodeInfo),
    updateFilters p v dn targets = .ok dn' →
    ∀ kv ∈ dn', ∃ info0, (kv.1, info0) ∈ dn := by
  intro targets
  induction targets with
  | nil =>
    intro dn dn' h kv hkv
    cases h
    exact ⟨kv.2, hkv⟩
  | cons t rest ih =>
    intro dn dn' h kv hkv
    unfold updateFilters at h
    cases hg : dictGet dn t with
    | none => rw [hg] at h; cases h
    | some info =>
      rw [hg] at h
      obtain ⟨info1, h1⟩ := ih _ _ h kv hkv
      rcases mem_pair_dictSet _ _ _ _ h1 with h' | h'
      · have hk : kv.1 = t := congrArg Prod.fst h'
        exact ⟨info, hk ▸ dictGet_some_pair_mem _ _ _ hg⟩
      · exact ⟨info1, h'⟩

theorem resolve_alias_mem_keys (g : QueryGraph) (f : Option String) (src : Int)
    (h2 : ∀ p, g.current_pointer = some p → p ∈ dictKeys g.nodes)
    (h3 : ∀ kv ∈ g.aliases, kv.2 ∈ dictKeys g.nodes)
    (hres : g.resolve_alias f = some src) : src ∈ dictKeys g.nodes := by
  cases f with
  | none => exact h2 src hres
  | some s => exact h3 (s, src) (dictGet_some_pair_mem _ _ _ hres)

/-- The strengthened state invariant carried through every successful public
builder operation: edge endpoints, the pointer and all alias targets are node
keys; every data-node registration points at a node whose `is_data_node`
constraint is `True`; node ids are non-negative; data-node ids stay below the
id counter; and the counter is non-negative. -/
theorem reachable_strong_inv (q : Query) (hq : Reachable q) :
    (∀ e ∈ q.query_graph.edges, e.source_id ∈ dictKeys q.query_graph.nodes ∧
      e.target_id ∈ dictKeys q.query_graph.nodes) ∧
    (∀ p, q.query_graph.current_pointer = some p → p ∈ dictKeys q.query_graph.nodes) ∧
    (∀ kv ∈ q.query_graph.aliases, kv.2 ∈ dictKeys q.query_graph.nodes) ∧
    (∀ kv ∈ q.query_graph.data_nodes, ∃ n, dictGet q.query_graph.nodes kv.1 = some n ∧
      dictGet n.constraints "is_data_node" = some (PyVal.bool true)) ∧
    (∀ k ∈ dictKeys q.query_graph.nodes, 0 ≤ k) ∧
    (∀ kv ∈ q.query_graph.data_nodes, kv.1 < q._next_id) ∧
    0 ≤ q._next_id := by
  induction hq with
  | empty =>
    refine ⟨?_, ?_, ?_, ?_, ?_, ?_, ?_⟩ <;>
      simp [Query.empty, QueryGraph.empty, dictKeys]
  | @findEntity q c a hq ih =>
    obtain ⟨ih1, ih2, ih3, ih4, ih5, ih6, ih7⟩ := ih
    simp only [Query.find_entity, Query._clone_with_graph, QueryGraph.with_node, Query._new_id]
    refine ⟨?_, ?_, ?_, ?_, ?_, ?_, ?_⟩
    · intro e he
      have := ih1 e he
      exact ⟨(mem_keys_dictSet _ _ _ _).mpr (Or.inr this.1),
        (mem_keys_dictSet _ _ _ _).mpr (Or.inr this.2)⟩
    · intro p hp
      cases hp
      exact (mem_keys_dictSet _ _ _ _).mpr (Or.inl rfl)
    · intro kv hkv
      rcases mem_pair_dictSet _ _ _ _ hkv with h | h
      · rw [h]
        exact (mem_keys_dictSet _ _ _ _).mpr (Or.inl rfl)
      · exact (mem_keys_dictSet _ _ _ _).mpr (Or.inr (ih3 kv h))
    · intro kv hkv
      obtain ⟨n, hn1, hn2⟩ := ih4 kv hkv
      refine ⟨n, ?_, hn2⟩
      have hne : kv.1 ≠ q._next_id := by
        have := ih6 kv hkv
        omega
      rw [dictGet_set_ne _ _ _ _ hne]
      exact hn1
    · intro k hk
      rcases (mem_keys_dictSet _ _ _ _).mp hk with h | h
      · omega
      · exact ih5 k h
    · intro kv hkv
      have := ih6 kv hkv
      omega
    · omega
  | @findRelated q q' c a f h p m hq hrun ih =>
    obtain ⟨ih1, ih2, ih3, ih4, ih5, ih6, ih7⟩ := ih
    unfold Query.find_related at hrun
    cases hres : q.query_graph.resolve_alias f with
    | none =>
      rw [hres] at hrun
      exact Except.noConfusion hrun
    | some src =>
      rw [hres] at hrun
      cases hrun
      have hsrc : src ∈ dictKeys q.query_graph.nodes :=
        resolve_alias_mem_keys _ _ _ ih2 ih3 hres
      simp only [Query._clone_with_graph, QueryGraph.with_node, QueryGraph.with_edge,
        Query._new_id]
      refine ⟨?_, ?_, ?_, ?_, ?_, ?_, ?_⟩
      · intro e he
        rcases List.mem_append.mp he with he | he
        · have := ih1 e he
          exact ⟨(mem_keys_dictSet _ _ _ _).mpr (Or.inr this.1),
            (mem_keys_dictSet _ _ _ _).mpr (Or.inr this.2)⟩
        · have hee : e.source_id = src ∧ e.target_id = q._next_id := by
            simp only [List.mem_singleton] at he
            split at he
            · subst he; exact ⟨rfl, rfl⟩
            · split at he
              · subst he; exact ⟨rfl, rfl⟩
              · subst he; exact ⟨rfl, rfl⟩
          constructor
          · rw [hee.1]
            exact (mem_keys_dictSet _ _ _ _).mpr (Or.inr hsrc)
          · rw [hee.2]
            exact (mem_keys_dictSet _ _ _ _).mpr (Or.inl rfl)
      · intro p' hp
        cases hp
        exact (mem_keys_dictSet _ _ _ _).mpr (Or.inl rfl)
      · intro kv hkv
        rcases mem_pair_dictSet _ _ _ _ hkv with hh | hh
        · rw [hh]
          exact (mem_keys_dictSet _ _ _ _).mpr (Or.inl rfl)
        · exact (mem_keys_dictSet _ _ _ _).mpr (Or.inr (ih3 kv hh))
      · intro kv hkv
        obtain ⟨n, hn1, hn2⟩ := ih4 kv hkv
        refine ⟨n, ?_, hn2⟩
        have hne : kv.1 ≠ q._next_id := by
          have := ih6 kv hkv
          omega
        rw [dictGet_set_ne _ _ _ _ hne]
        exact hn1
      · intro k hk
        rcases (mem_keys_dictSet _ _ _ _).mp hk with hh | hh
        · omega
        · exact ih5 k hh
      · intro kv hkv
        have := ih6 kv hkv
        omega
      · omega
  | @findData q q' f p c h fd a hq hrun ih =>
    exfalso
    simp only [Query.find_data] at hrun
    split at hrun
    · split at hrun
      · exact Except.noConfusion hrun
      · exact Except.noConfusion hrun
    · cases hres : q.query_graph.resolve_alias f with
      | none =>
        rw [hres] at hrun
        exact Except.noConfusion hrun
      | some s =>
        rw [hres] at hrun
        exact Except.noConfusion hrun
  | @relateTo q other q' f t h p hq hother hrun ih ihother =>
    obtain ⟨ih1, ih2, ih3, ih4, ih5, ih6, ih7⟩ := ih
    obtain ⟨io1, io2, io3, io4, io5, io6, io7⟩ := ihother
    simp only [Query.relate_to] at hrun
    set M := listMaxD (dictKeys q.query_graph.nodes) (-1) with hM
    set mapping := other.query_graph.nodes.foldl
      (fun m kv => dictSet m kv.1 (M + 1 + kv.1)) ([] : Dict Int Int) with hmap
    set mergedN := other.query_graph.nodes.foldl
      (fun acc kv => dictSet acc (M + 1 + kv.1) kv.2) q.query_graph.nodes with hmn
    have hMge : (-1 : Int) ≤ M := init_le_foldl_max _ _
    have hmergedK : ∀ k0, (k0 ∈ dictKeys q.query_graph.nodes ∨
        (∃ kv ∈ other.query_graph.nodes, k0 = M + 1 + kv.1)) →
        k0 ∈ dictKeys mergedN := by
      intro k0 hk0
      rw [hmn, mem_keys_foldl_nodes]
      exact hk0.symm
    have hmget_inv : ∀ k j, dictGet mapping k = some j →
        j = M + 1 + k ∧ k ∈ dictKeys other.query_graph.nodes := by
      intro k j hkj
      rw [hmap, foldl_mapping_get] at hkj
      split at hkj
      · cases hkj
        exact ⟨rfl, by assumption⟩
      · simp [dictGet] at hkj
    have hmapped_mem : ∀ k j, dictGet mapping k = some j → j ∈ dictKeys mergedN := by
      intro k j hkj
      obtain ⟨hj, hk⟩ := hmget_inv k j hkj
      obtain ⟨kv, hkv, hkveq⟩ := List.mem_map.mp hk
      exact hmergedK j (Or.inr ⟨kv, hkv, by rw [hj, hkveq]⟩)
    split at hrun
    · exact Except.noConfusion hrun
    rename_i src hsrc
    split at hrun
    · exact Except.noConfusion hrun
    rename_i tgt htgt
    have hsrck : src ∈ dictKeys q.query_graph.nodes := by
      cases f with
      | none => exact ih2 src hsrc
      | some s => exact ih3 (s, src) (dictGet_some_pair_mem _ _ _ hsrc)
    split at hrun
    · exact Except.noConfusion hrun
    rename_i es hse
    split at hrun
    · exact Except.noConfusion hrun
    rename_i ar hma
    split at hrun
    · exact Except.noConfusion hrun
    rename_i tgt' htg
    cases hrun
    simp only [QueryGraph.with_edge]
    refine ⟨?_, ?_, ?_, by simp, ?_, by simp, by omega⟩
    · intro e he
      rcases List.mem_append.mp he with he | he
      · rcases List.mem_append.mp he with he | he
        · have := ih1 e he
          exact ⟨hmergedK _ (Or.inl this.1), hmergedK _ (Or.inl this.2)⟩
        · obtain ⟨e0, _, hes, het⟩ := shiftEdges_ok_inv mapping _ es hse e he
          exact ⟨hmapped_mem _ _ hes, hmapped_mem _ _ het⟩
      · simp only [List.mem_singleton] at he
        subst he
        exact ⟨hmergedK _ (Or.inl hsrck), hmapped_mem _ _ htg⟩
    · intro p' hp
      cases hp
      exact hmapped_mem _ _ htg
    · intro kv hkv
      refine mergeAliases_ok_inv mapping (fun j => j ∈ dictKeys mergedN)
        (fun i j hij => hmapped_mem i j hij) other.query_graph.aliases
        q.query_graph.aliases q.query_graph.aliases_reverse ar.1 ar.2
        (fun kv' hkv' => hmergedK _ (Or.inl (ih3 kv' hkv'))) hma kv hkv
    · intro k hk
      rw [hmn, mem_keys_foldl_nodes] at hk
      rcases hk with ⟨kv, hkv, hkeq⟩ | hk
      · have h0 : 0 ≤ kv.1 := io5 kv.1 (List.mem_map.mpr ⟨kv, hkv, rfl⟩)
        omega
      · exact ih5 k hk
  | @findAllData q q' c h fd a hq hrun ih =>
    obtain ⟨ih1, ih2, ih3, ih4, ih5, ih6, ih7⟩ := ih
    simp only [Query.find_all_data] at hrun
    split at hrun
    · rename_i hemp
      cases hrun
      simp only [Query._add_data_node, Query._clone_with_graph, QueryGraph.with_node,
        QueryGraph.with_data_node, Query._new_id]
      refine ⟨?_, ?_, ?_, ?_, ?_, ?_, by omega⟩
      · intro e he
        have h1 := (ih1 e he).1
        rw [hemp] at h1
        simp [dictKeys] at h1
      · intro p' hp
        cases hp
        exact (mem_keys_dictSet _ _ _ _).mpr (Or.inl rfl)
      · intro kv hkv
        rcases mem_pair_dictSet _ _ _ _ hkv with hh | hh
        · rw [hh]
          exact (mem_keys_dictSet _ _ _ _).mpr (Or.inl rfl)
        · have h1 := ih3 kv hh
          rw [hemp] at h1
          simp [dictKeys] at h1
      · intro kv hkv
        rcases mem_pair_dictSet _ _ _ _ hkv with hh | hh
        · rw [hh]
          refine ⟨_, dictGet_set_self _ _ _, ?_⟩
          rfl
        · obtain ⟨n, hn1, _⟩ := ih4 kv hh
          rw [hemp] at hn1
          simp [dictGet] at hn1
      · intro k hk
        rcases (mem_keys_dictSet _ _ _ _).mp hk with hh | hh
        · omega
        · exact ih5 k hh
      · intro kv hkv
        rcases mem_pair_dictSet _ _ _ _ hkv with hh | hh
        · have h6 : kv.1 = q._next_id := congrArg Prod.fst hh
          simp only [if_true]
          omega
        · obtain ⟨n, hn1, _⟩ := ih4 kv hh
          rw [hemp] at hn1
          simp [dictGet] at hn1
    · exfalso
      simp only [Query.find_data] at hrun
      split at hrun
      all_goals
        first
          | exact Except.noConfusion hrun
          | (split at hrun <;> exact Except.noConfusion hrun)
  | @filterDataNodes q q' p v f hq hrun ih =>
    obtain ⟨ih1, ih2, ih3, ih4, ih5, ih6, ih7⟩ := ih
    simp only [Query.filter_data_nodes] at hrun
    split at hrun
    · exact Except.noConfusion hrun
    rename_i targets hsel
    split at hrun
    · exact Except.noConfusion hrun
    rename_i hne
    split at hrun
    · exact Except.noConfusion hrun
    rename_i dn2 hupf
    cases hrun
    simp only [Query._clone_with_graph]
    refine ⟨ih1, ih2, ih3, ?_, ih5, ?_, by omega⟩
    · intro kv hkv
      obtain ⟨info0, hmem⟩ := updateFilters_mem_inv p v targets _ dn2 hupf kv hkv
      exact ih4 (kv.1, info0) hmem
    · intro kv hkv
      obtain ⟨info0, hmem⟩ := updateFilters_mem_inv p v targets _ dn2 hupf kv hkv
      have := ih6 (kv.1, info0) hmem
      simpa using this

/-- **C3** (provable part): in every Query reachable by successful public
builder operations, every edge's `source_id` and `target_id` are keys of the
nodes map, and every id registered in `data_nodes` names a node whose
`constraints["is_data_node"]` is `True`.  (The converse direction of the
claimed iff is refuted below: `relate_to` discards registrations.) -/
theorem reachable_graph_integrity (q : Query) (hq : Reachable q) :
    (∀ e ∈ q.query_graph.edges, e.source_id ∈ dictKeys q.query_graph.nodes ∧
      e.target_id ∈ dictKeys q.query_graph.nodes) ∧
    (∀ kv ∈ q.query_graph.data_nodes,
      ∃ n, dictGet q.query_graph.nodes kv.1 = some n ∧
        dictGet n.constraints "is_data_node" = some (PyVal.bool true)) := by
  have h := reachable_strong_inv q hq
  exact ⟨h.1, h.2.2.2.1⟩

theorem reachable_graph_integrity_witness :
    (∀ e ∈ (Query.empty.find_entity "C" Option.none).query_graph.edges,
      e.source_id ∈ dictKeys (Query.empty.find_entity "C" Option.none).query_graph.nodes ∧
      e.target_id ∈ dictKeys (Query.empty.find_entity "C" Option.none).query_graph.nodes) ∧
    (∀ kv ∈ (Query.empty.find_entity "C" Option.none).query_graph.data_nodes,
      ∃ n, dictGet (Query.empty.find_entity "C" Option.none).query_graph.nodes kv.1 = some n ∧
        dictGet n.constraints "is_data_node" = some (PyVal.bool true)) :=
  reachable_graph_integrity (Query.empty.find_entity "C" Option.none)
    (Reachable.findEntity "C" Option.none Reachable.empty)

/-- Counterexample to the claimed iff of C3: a reachable query (an entity
related to a standalone data node via `relate_to`) whose node `1` carries the
`is_data_node: True` constraint while `data_nodes` is empty, so the node id is
NOT a member of `data_nodes`. -/
theorem reachable_node_constrained_data_but_unregistered :
    ∃ qd q3 : Query,
      Query.empty.find_all_data Option.none 1 Option.none (some "d") = Except.ok qd ∧
      (Query.empty.find_entity "C" Option.none).relate_to qd Option.none Option.none 1
        Option.none = Except.ok q3 ∧
      Reachable q3 ∧
      (∃ n, dictGet q3.query_graph.nodes 1 = some n ∧
        dictGet n.constraints "is_data_node" = some (PyVal.bool true)) ∧
      q3.query_graph.data_nodes = [] :=
  ⟨_, _, rfl, rfl,
    Reachable.relateTo Option.none Option.none 1 Option.none
      (Reachable.findEntity "C" Option.none Reachable.empty)
      (Reachable.findAllData Option.none 1 Option.none (some "d") Reachable.empty rfl)
      rfl,
    ⟨_, rfl, rfl⟩, rfl⟩
